import Mathlib

/-! # Volumes backup extension: stop / load / start orchestration

A shallow embedding of `vm/internal/backend/containers.go`,
`vm/internal/backend/load.go` and `vm/internal/handler/load.go`.

* The Docker engine client (`*client.Client`) is an external collaborator.  It is
  a parameter of every definition: a record of operations over an arbitrary
  engine state `σ`, each returning its Go result together with the next state.
  Nothing is assumed about what the engine answers.
* Every client call is recorded, with its arguments and its result, in a trace
  of `Event`s.  The trace is the only observation the theorems make of "a call
  was issued".
* `errgroup.Group` is embedded as a set of goroutines stepped by an explicit
  schedule; every interleaving of the client calls of the goroutines is the run
  of some schedule.  The cancellation of the group context reaches the code only
  through the results of the client calls made with it, and those are arbitrary.
* Logging (`log.Infof`, `log.Error`) and `bugsnag.Notify` have no effect on the
  control flow and are left out.
-/

namespace VolumesBackup

/-! ## Go values -/

/-- Go `error` value, observed through `err.Error()`. A nil error is `none : Option GoError`. -/
structure GoError where
  Error : String
  deriving DecidableEq, Repr

/-- Go `strings.HasPrefix`. -/
def HasPrefix (s pre : String) : Bool :=
  pre.data.isPrefixOf s.data

/-- Go `strings.TrimPrefix`: `s` without the leading `pre`, or `s` itself when it
does not start with `pre`. -/
def TrimPrefix (s pre : String) : String :=
  if HasPrefix s pre then ⟨s.data.drop pre.data.length⟩ else s

/-- Go `time.Second`, a `time.Duration` in nanoseconds. -/
def Second : Nat := 1000000000

/-- Decimal rendering of an `int64` by the verb `%d`. -/
def formatInt64 (n : Int) : String :=
  match n with
  | Int.ofNat m => Nat.repr m
  | Int.negSucc m => "-" ++ Nat.repr (m + 1)

/-! ## Decimal numerals

What "the exit code in decimal" means: the numeral reads back as the number. -/

/-- Read decimal digits, most significant first, onto the value `acc` read so far;
`none` when a character is not one of `0` to `9`. -/
def readDigits : List Char → Nat → Option Nat
  | [], acc => some acc
  | c :: cs, acc =>
    if c.isDigit then readDigits cs (10 * acc + (c.toNat - 48)) else none

/-- Read a decimal numeral: an optional `-` followed by at least one decimal digit. -/
def parseDecimal (s : String) : Option Int :=
  match s.data with
  | [] => none
  | c :: cs =>
    if c = '-' then
      if cs = [] then none else (readDigits cs 0).map fun n => -(n : Int)
    else (readDigits (c :: cs) 0).map fun n => (n : Int)

/-! ## Engine client -/

/-- Engine container descriptor `types.Container`; only `Names` is read. -/
structure Container where
  Names : List String
  deriving DecidableEq, Repr

/-- Options `types.ContainerListOptions`; `Filters` holds the `filters.Arg` pairs. -/
structure ContainerListOptions where
  All : Bool
  Filters : List (String × String)
  deriving DecidableEq, Repr

/-- Configuration `container.Config`, the fields `Load` sets. -/
structure Config where
  Image : String
  AttachStdout : Bool
  AttachStderr : Bool
  Cmd : List String
  deriving DecidableEq, Repr

/-- Configuration `container.HostConfig`, the field `Load` sets. -/
structure HostConfig where
  Binds : List String
  deriving DecidableEq, Repr

/-- The multiplexed log stream returned by `ContainerLogs`, as `stdcopy.StdCopy`
consumes it: the number of bytes it copies and the error that ends the copy. -/
structure ReadCloser where
  written : Nat
  err : Option GoError
  deriving DecidableEq, Repr

/-- Go `stdcopy.StdCopy(os.Stdout, os.Stderr, out)`. -/
def StdCopy (out : ReadCloser) : Nat × Option GoError :=
  (out.written, out.err)

/-- Result of a client call that returns `(value, error)` and whose value the
code reads only when the error is nil. -/
inductive Res (α : Type) where
  | ok (v : α)
  | error (err : GoError)
  deriving DecidableEq, Repr

/-- The channel of `ContainerWait` that fires in the `select` of `Load`:
`errCh` with the value received (possibly nil), or `statusCh` with the exit
status. -/
inductive WaitResult where
  | errCh (err : Option GoError)
  | statusCh (StatusCode : Int)
  deriving DecidableEq, Repr

/-- The operations of `*client.Client` the code uses, over an engine state `σ`.
`ContainerList` returns the Go pair `(containers, err)`: the slice may hold
containers also when `err` is non-nil.  `TriggerUIRefresh` is `backend.TriggerUIRefresh`, whose body is outside the
embedded files and is kept as an operation of the environment. -/
structure Client (σ : Type) where
  ContainerList : ContainerListOptions → σ → (List Container × Option GoError) × σ
  ContainerStop : String → Nat → σ → Option GoError × σ
  ContainerStart : String → σ → Option GoError × σ
  ContainerCreate : Config → HostConfig → σ → Res String × σ
  ContainerWait : String → σ → WaitResult × σ
  ContainerLogs : String → σ → Res ReadCloser × σ
  ContainerRemove : String → σ → Option GoError × σ
  TriggerUIRefresh : σ → Option GoError × σ

/-- One client call with its arguments and its result. -/
inductive Event where
  | ContainerList (options : ContainerListOptions) (res : List Container × Option GoError)
  | ContainerStop (containerID : String) (timeout : Nat) (res : Option GoError)
  | ContainerStart (containerID : String) (res : Option GoError)
  | ContainerCreate (config : Config) (hostConfig : HostConfig) (res : Res String)
  | ContainerWait (containerID : String) (res : WaitResult)
  | ContainerLogs (containerID : String) (res : Res ReadCloser)
  | ContainerRemove (containerID : String) (res : Option GoError)
  | TriggerUIRefresh (res : Option GoError)
  deriving DecidableEq, Repr

/-- Engine state together with the calls issued so far. -/
structure World (σ : Type) where
  engine : σ
  trace : List Event

/-- Call `cli.ContainerList` and record it. -/
def callList {σ : Type} (cli : Client σ) (options : ContainerListOptions) (w : World σ) :
    (List Container × Option GoError) × World σ :=
  let r := cli.ContainerList options w.engine
  (r.1, ⟨r.2, w.trace ++ [Event.ContainerList options r.1]⟩)

/-- Call `cli.ContainerStop` and record it. -/
def callStop {σ : Type} (cli : Client σ) (containerID : String) (timeout : Nat) (w : World σ) :
    Option GoError × World σ :=
  let r := cli.ContainerStop containerID timeout w.engine
  (r.1, ⟨r.2, w.trace ++ [Event.ContainerStop containerID timeout r.1]⟩)

/-- Call `cli.ContainerStart` (with `types.ContainerStartOptions{}`) and record it. -/
def callStart {σ : Type} (cli : Client σ) (containerID : String) (w : World σ) :
    Option GoError × World σ :=
  let r := cli.ContainerStart containerID w.engine
  (r.1, ⟨r.2, w.trace ++ [Event.ContainerStart containerID r.1]⟩)

/-- Call `cli.ContainerCreate` (networking configuration and platform nil, name
empty) and record it. -/
def callCreate {σ : Type} (cli : Client σ) (config : Config) (hostConfig : HostConfig)
    (w : World σ) : Res String × World σ :=
  let r := cli.ContainerCreate config hostConfig w.engine
  (r.1, ⟨r.2, w.trace ++ [Event.ContainerCreate config hostConfig r.1]⟩)

/-- Call `cli.ContainerWait` (with `container.WaitConditionNotRunning`), take the
channel that fires, and record it. -/
def callWait {σ : Type} (cli : Client σ) (containerID : String) (w : World σ) :
    WaitResult × World σ :=
  let r := cli.ContainerWait containerID w.engine
  (r.1, ⟨r.2, w.trace ++ [Event.ContainerWait containerID r.1]⟩)

/-- Call `cli.ContainerLogs` (with `types.ContainerLogsOptions{ShowStdout: true}`)
and record it. -/
def callLogs {σ : Type} (cli : Client σ) (containerID : String) (w : World σ) :
    Res ReadCloser × World σ :=
  let r := cli.ContainerLogs containerID w.engine
  (r.1, ⟨r.2, w.trace ++ [Event.ContainerLogs containerID r.1]⟩)

/-- Call `cli.ContainerRemove` (with `types.ContainerRemoveOptions{}`) and record it. -/
def callRemove {σ : Type} (cli : Client σ) (containerID : String) (w : World σ) :
    Option GoError × World σ :=
  let r := cli.ContainerRemove containerID w.engine
  (r.1, ⟨r.2, w.trace ++ [Event.ContainerRemove containerID r.1]⟩)

/-- Call `backend.TriggerUIRefresh` and record it. -/
def callRefresh {σ : Type} (cli : Client σ) (w : World σ) : Option GoError × World σ :=
  let r := cli.TriggerUIRefresh w.engine
  (r.1, ⟨r.2, w.trace ++ [Event.TriggerUIRefresh r.1]⟩)

/-! ## `containers.go` -/

/-- The loop of `GetContainersForVolume` (lines 23-26): append
`strings.TrimPrefix(c.Names[0], "/")` for each container.  `none` is the run-time
panic of `c.Names[0]` on a container without names. -/
def collectNames : List Container → List String → Option (List String)
  | [], containerNames => some containerNames
  | c :: rest, containerNames =>
    match c.Names with
    | [] => none
    | name :: _ => collectNames rest (containerNames ++ [TrimPrefix name "/"])

/-- `GetContainersForVolume` (lines 14-29).  A non-nil `err` is only logged
(lines 19-21); the loop then ranges over the slice `containers` that came with
it, whatever it holds. -/
def GetContainersForVolume {σ : Type} (cli : Client σ) (volumeName : String) (w : World σ) :
    Option (List String) × World σ :=
  let r := callList cli { All := true, Filters := [("volume", volumeName)] } w
  let containers : List Container := r.1.1
  (collectNames containers [], r.2)

/-! ## `errgroup.Group` -/

/-- What the function given to `g.Go` does next: go on at another program
point, or return. -/
inductive Next (τ : Type) where
  | goto (pc : τ)
  | ret (r : Option GoError)

/-- Where a goroutine of the group stands: inside the function given to `g.Go`,
back from it with `r` and about to run `g.errOnce.Do`, or gone. -/
inductive Phase (τ : Type) where
  | running (pc : τ)
  | returning (r : Option GoError)
  | exited (r : Option GoError)

/-- A goroutine started by `g.Go`, with the `containerName` its closure captured. -/
structure Goroutine (τ : Type) where
  containerName : String
  phase : Phase τ

/-- State `errgroup.Group` with its goroutines: `err` is the field `g.err`, written
once by the first goroutine that returns a non-nil error; `shared` is the state
the goroutines share. -/
structure Group (τ κ : Type) where
  goroutines : List (Goroutine τ)
  err : Option GoError
  shared : κ

/-- The function given to `g.Go`, one client call per step. -/
abbrev Body (τ κ : Type) := String → τ → κ → Next τ × κ

/-- One step of one goroutine.  In phase `returning` it runs
`if err != nil then g.errOnce.Do(g.err = err; cancel)` and exits. -/
def stepGoroutine {τ κ : Type} (body : Body τ κ) (g : Goroutine τ) (err : Option GoError)
    (s : κ) : Goroutine τ × Option GoError × κ :=
  match g.phase with
  | Phase.running pc =>
    match body g.containerName pc s with
    | (Next.goto pc', s') => ({ g with phase := Phase.running pc' }, err, s')
    | (Next.ret r, s') => ({ g with phase := Phase.returning r }, err, s')
  | Phase.returning r =>
    ({ g with phase := Phase.exited r },
      (match err with
       | some e => some e
       | none => r), s)
  | Phase.exited _ => (g, err, s)

/-- Step the goroutine at index `i`; an index past the end steps nothing. -/
def stepAt {τ κ : Type} (body : Body τ κ) :
    Nat → List (Goroutine τ) → Option GoError → κ → List (Goroutine τ) × Option GoError × κ
  | _, [], err, s => ([], err, s)
  | 0, g :: gs, err, s =>
    let r := stepGoroutine body g err s
    (r.1 :: gs, r.2.1, r.2.2)
  | i + 1, g :: gs, err, s =>
    let r := stepAt body i gs err s
    (g :: r.1, r.2.1, r.2.2)

/-- Run the goroutines in the order the schedule gives. -/
def runSchedule {τ κ : Type} (body : Body τ κ) : List Nat → Group τ κ → Group τ κ
  | [], G => G
  | i :: sched, G =>
    let r := stepAt body i G.goroutines G.err G.shared
    runSchedule body sched ⟨r.1, r.2.1, r.2.2⟩

/-- The schedule that lets goroutine `0`, then `1`, ... up to `n - 1` take
`fuel` steps each. -/
def drainSchedule (fuel : Nat) : Nat → List Nat
  | 0 => []
  | n + 1 => List.replicate fuel 0 ++ (drainSchedule fuel n).map (· + 1)

/-- `g.Wait()`: the goroutines interleave as `sched` says, then every goroutine
still alive runs to its end (`fuel` steps suffice for the bodies below);
`Wait` returns the field `err` of the result. -/
def Wait {τ κ : Type} (body : Body τ κ) (fuel : Nat) (sched : List Nat) (G : Group τ κ) :
    Group τ κ :=
  runSchedule body (sched ++ drainSchedule fuel G.goroutines.length) G

/-- The loop `for _, containerName := range containerNames { g.Go(...) }`. -/
def spawn {τ : Type} (entry : τ) (containerNames : List String) : List (Goroutine τ) :=
  containerNames.map fun containerName => ⟨containerName, Phase.running entry⟩

/-! ## `containers.go`, continued -/

/-- Program points of the closure of `StopContainersAttachedToVolume`: before the
re-query of line 42, before the stop of line 55. -/
inductive StopPc where
  | query
  | stop

/-- State shared by the goroutines of `StopContainersAttachedToVolume`: the world
and the slice `stoppedContainersByExtension`, which the goroutines append to and
nothing reads. -/
structure StopShared (σ : Type) where
  world : World σ
  stoppedContainersByExtension : List String

/-- `var timeout = 10 * time.Second` (line 33). -/
def timeout : Nat := 10 * Second

/-- The closure of lines 40-63. -/
def stopBody {σ : Type} (cli : Client σ) : Body StopPc (StopShared σ)
  | containerName, StopPc.query, sh =>
    match callList cli { All := false, Filters := [("name", containerName)] } sh.world with
    | ((_, some err), w) => (Next.ret (some err), { sh with world := w })
    | ((containers, none), w) =>
      if containers.length ≠ 1 then (Next.ret none, { sh with world := w })
      else (Next.goto StopPc.stop, { sh with world := w })
  | containerName, StopPc.stop, sh =>
    match callStop cli containerName timeout sh.world with
    | (some err, w) => (Next.ret (some err), { sh with world := w })
    | (none, w) =>
      (Next.ret none,
        { world := w,
          stoppedContainersByExtension := sh.stoppedContainersByExtension ++ [containerName] })

/-- The group of `StopContainersAttachedToVolume` after `g.Wait()`, started on
engine state `s` with an empty trace. -/
def stopGroup {σ : Type} (cli : Client σ) (sched : List Nat) (containerNames : List String)
    (s : σ) : Group StopPc (StopShared σ) :=
  Wait (stopBody cli) 3 sched ⟨spawn StopPc.query containerNames, none, ⟨⟨s, []⟩, []⟩⟩

/-- `StopContainersAttachedToVolume` (lines 31-67): returns `containerNames` and
`g.Wait()`.  `none` is the panic of `GetContainersForVolume`. -/
def StopContainersAttachedToVolume {σ : Type} (cli : Client σ) (sched : List Nat)
    (volumeName : String) (s : σ) : Option (List String × Option GoError) × World σ :=
  let r := GetContainersForVolume cli volumeName ⟨s, []⟩
  match r.1 with
  | none => (none, r.2)
  | some containerNames =>
    let G := stopGroup cli sched containerNames r.2.engine
    (some (containerNames, G.err),
      ⟨G.shared.world.engine, r.2.trace ++ G.shared.world.trace⟩)

/-- Program point of the closure of `StartContainersAttachedToVolume`: before the
start of line 76. -/
inductive StartPc where
  | start

/-- The closure of lines 74-83. -/
def startBody {σ : Type} (cli : Client σ) : Body StartPc (World σ)
  | containerName, StartPc.start, w =>
    match callStart cli containerName w with
    | (some err, w') => (Next.ret (some err), w')
    | (none, w') => (Next.ret none, w')

/-- The group of `StartContainersAttachedToVolume` after `g.Wait()`. -/
def startGroup {σ : Type} (cli : Client σ) (sched : List Nat) (containers : List String)
    (s : σ) : Group StartPc (World σ) :=
  Wait (startBody cli) 2 sched ⟨spawn StartPc.start containers, none, ⟨s, []⟩⟩

/-- `StartContainersAttachedToVolume` (lines 69-87). -/
def StartContainersAttachedToVolume {σ : Type} (cli : Client σ) (sched : List Nat)
    (containers : List String) (s : σ) : Option GoError × World σ :=
  let G := startGroup cli sched containers s
  (G.err, G.shared)

/-! ## `backend/load.go` -/

/-- The `container.Config` of `Load` (lines 15-22). -/
def loadConfig (image : String) : Config :=
  { Image := image
    AttachStdout := true
    AttachStderr := true
    Cmd := ["/bin/sh", "-c",
      "rm -rf /mount-volume/..?* /mount-volume/.[!.]* /mount-volume/* && cp -Rp /volume-data/. /mount-volume/;"] }

/-- The `container.HostConfig` of `Load` (lines 23-27). -/
def loadHostConfig (volumeName : String) : HostConfig :=
  { Binds := [volumeName ++ ":" ++ "/mount-volume"] }

/-- `Load` (lines 14-68), started on engine state `s` with an empty trace. -/
def Load {σ : Type} (cli : Client σ) (volumeName image : String) (s : σ) :
    Option GoError × World σ :=
  match callCreate cli (loadConfig image) (loadHostConfig volumeName) ⟨s, []⟩ with
  | (Res.error err, w) => (some err, w)
  | (Res.ok respID, w) =>
    match callStart cli respID w with
    | (some err, w) => (some err, w)
    | (none, w) =>
      match callWait cli respID w with
      | (WaitResult.errCh (some err), w) => (some err, w)
      | (wr, w) =>
        let exitCode : Int :=
          match wr with
          | WaitResult.statusCh StatusCode => StatusCode
          | WaitResult.errCh _ => 0
        match callLogs cli respID w with
        | (Res.error err, w) => (some err, w)
        | (Res.ok out, w) =>
          match (StdCopy out).2 with
          | some err => (some err, w)
          | none =>
            if exitCode ≠ 0 then
              (some ⟨"container exited with status code " ++ formatInt64 exitCode ++ "\n"⟩, w)
            else
              match callRemove cli respID w with
              | (some err, w) => (some err, w)
              | (none, w) => (none, w)

/-! ## `handler/load.go` -/

/-- What `LoadImage` hands back to echo: the response written by `ctx.String`,
the `*echo.HTTPError` of `echo.NewHTTPError`, or a panic that unwinds through it. -/
inductive HandlerResult where
  | String (code : Nat) (s : String)
  | HTTPError (code : Nat) (message : String)
  | panic
  deriving DecidableEq, Repr

/-- The receiver `h`: the result of `h.DockerClient()`. -/
structure Handler (σ : Type) where
  DockerClient : Res (Client σ)

/-- The map `h.ProgressCache.m` and the world. -/
structure HandlerState (σ : Type) where
  ProgressCache : String → Option String
  world : World σ

/-- Go `m[key] = value`. -/
def mapSet (m : String → Option String) (key value : String) : String → Option String :=
  fun k => if k = key then some value else m k

/-- Go `delete(m, key)`. -/
def mapDelete (m : String → Option String) (key : String) : String → Option String :=
  fun k => if k = key then none else m k

/-- The deferred function of lines 32-37, run when `LoadImage` leaves with `res`
in world `w`. -/
def deferred {σ : Type} (cli : Client σ) (volumeName : String) (res : HandlerResult)
    (cache : String → Option String) (w : World σ) : HandlerResult × HandlerState σ :=
  (res, { ProgressCache := mapDelete cache volumeName, world := (callRefresh cli w).2 })

/-- Put the calls `pre` before those of `w`. -/
def World.after {σ : Type} (pre : World σ) (w : World σ) : World σ :=
  ⟨w.engine, pre.trace ++ w.trace⟩

/-- `Handler.LoadImage` (lines 12-72), on engine state `s` with an empty trace. -/
def LoadImage {σ : Type} (h : Handler σ) (schedStop schedStart : List Nat)
    (volumeName image : String) (cache : String → Option String) (s : σ) :
    HandlerResult × HandlerState σ :=
  if volumeName = "" then
    (HandlerResult.String 400 "volume is required", ⟨cache, ⟨s, []⟩⟩)
  else if image = "" then
    (HandlerResult.String 400 "image is required", ⟨cache, ⟨s, []⟩⟩)
  else
    match h.DockerClient with
    | Res.error err => (HandlerResult.String 500 err.Error, ⟨cache, ⟨s, []⟩⟩)
    | Res.ok cli =>
      let cache := mapSet cache volumeName "load"
      match callRefresh cli ⟨s, []⟩ with
      | (some err, w) => deferred cli volumeName (HandlerResult.String 500 err.Error) cache w
      | (none, w) =>
        match StopContainersAttachedToVolume cli schedStop volumeName w.engine with
        | (none, w1) => deferred cli volumeName HandlerResult.panic cache (w.after w1)
        | (some (_, some err), w1) =>
          deferred cli volumeName (HandlerResult.HTTPError 500 err.Error) cache (w.after w1)
        | (some (stoppedContainers, none), w1) =>
          match Load cli volumeName image w1.engine with
          | (some err, w2) =>
            deferred cli volumeName (HandlerResult.HTTPError 500 err.Error) cache
              ((w.after w1).after w2)
          | (none, w2) =>
            match StartContainersAttachedToVolume cli schedStart stoppedContainers w2.engine with
            | (some err, w3) =>
              deferred cli volumeName (HandlerResult.HTTPError 500 err.Error) cache
                (((w.after w1).after w2).after w3)
            | (none, w3) =>
              deferred cli volumeName (HandlerResult.String 200 "") cache
                (((w.after w1).after w2).after w3)

/-! ## A reference engine

A small deterministic engine used to run the code on concrete inputs. Its `name`
filter matches every container whose name contains the filter value, as the
engine's `name` filter does; a listing without `All` reports running containers
only. -/

/-- A container of the reference engine; the engine reports its name as `"/" ++ name`. -/
structure SimContainer where
  name : String
  running : Bool
  volumes : List String
  deriving DecidableEq, Repr

/-- State of the reference engine. -/
structure Sim where
  containers : List SimContainer
  volumeListingFails : Bool
  loaderExitCode : Int
  loaderExists : Bool
  deriving DecidableEq, Repr

/-- Whether `sub` occurs in `s`. -/
def containsChars : List Char → List Char → Bool
  | [], sub => sub.isPrefixOf []
  | c :: s, sub => sub.isPrefixOf (c :: s) || containsChars s sub

/-- Whether a container of the reference engine matches one filter pair. -/
def Sim.matchesFilter (c : SimContainer) (f : String × String) : Bool :=
  if f.1 = "volume" then c.volumes.contains f.2
  else if f.1 = "name" then containsChars c.name.data f.2.data
  else true

/-- Set the `running` flag of the container named `name`. -/
def Sim.setRunning (s : Sim) (name : String) (running : Bool) : Sim :=
  { s with containers := s.containers.map fun c =>
      if c.name = name then { c with running := running } else c }

/-- The client of the reference engine. -/
def Sim.client : Client Sim where
  ContainerList := fun options s =>
    if s.volumeListingFails && options.Filters.any (fun f => f.1 = "volume") then
      (([], some ⟨"cannot connect to the engine"⟩), s)
    else
      (((s.containers.filter fun c =>
          (options.All || c.running) && options.Filters.all (Sim.matchesFilter c)).map
          fun c => ⟨["/" ++ c.name]⟩, none), s)
  ContainerStop := fun containerID _ s =>
    if s.containers.any (fun c => c.name = containerID) then
      (none, s.setRunning containerID false)
    else (some ⟨"No such container: " ++ containerID⟩, s)
  ContainerStart := fun containerID s =>
    if containerID = "loader" && s.loaderExists then (none, s)
    else if s.containers.any (fun c => c.name = containerID) then
      (none, s.setRunning containerID true)
    else (some ⟨"No such container: " ++ containerID⟩, s)
  ContainerCreate := fun _ _ s => (Res.ok "loader", { s with loaderExists := true })
  ContainerWait := fun _ s => (WaitResult.statusCh s.loaderExitCode, s)
  ContainerLogs := fun _ s => (Res.ok ⟨0, none⟩, s)
  ContainerRemove := fun containerID s =>
    if containerID = "loader" && s.loaderExists then (none, { s with loaderExists := false })
    else (some ⟨"No such container: " ++ containerID⟩, s)
  TriggerUIRefresh := fun s => (none, s)

/-- Whether an event is a `ContainerRemove` call. -/
def Event.isRemove : Event → Bool
  | Event.ContainerRemove _ _ => true
  | _ => false

/-- Whether an event is a `ContainerCreate` call. -/
def Event.isCreate : Event → Bool
  | Event.ContainerCreate _ _ _ => true
  | _ => false

/-- Whether an event is a `ContainerStop` call. -/
def Event.isStop : Event → Bool
  | Event.ContainerStop _ _ _ => true
  | _ => false

/-- The error a client call returned, if it returned one. -/
def Event.err : Event → Option GoError
  | Event.ContainerList _ (_, some e) => some e
  | Event.ContainerStop _ _ (some e) => some e
  | Event.ContainerStart _ (some e) => some e
  | Event.ContainerCreate _ _ (Res.error e) => some e
  | Event.ContainerWait _ (WaitResult.errCh (some e)) => some e
  | Event.ContainerLogs _ (Res.error e) => some e
  | Event.ContainerRemove _ (some e) => some e
  | Event.TriggerUIRefresh (some e) => some e
  | _ => none

/-- The phase a goroutine enters after a step of its body. -/
def phaseOf {τ : Type} : Next τ → Phase τ
  | Next.goto pc => Phase.running pc
  | Next.ret r => Phase.returning r

/-- `k` steps of one goroutine. -/
def stepN {τ κ : Type} (body : Body τ κ) :
    Nat → Goroutine τ × Option GoError × κ → Goroutine τ × Option GoError × κ
  | 0, x => x
  | k + 1, x => stepN body k (stepGoroutine body x.1 x.2.1 x.2.2)

/-- What the proofs need to know of a body: `P s n ph` is what holds of the
goroutine for `n` in phase `ph` when the shared state is `s`, `Q n ev` says that
`ev` is a call the goroutine for `n` may issue, and `tr` reads the trace off the
shared state. -/
structure BodySpec {τ κ : Type} (body : Body τ κ) (tr : κ → List Event)
    (P : κ → String → Phase τ → Prop) (Q : String → Event → Prop) : Prop where
  step : ∀ n pc s, P s n (Phase.running pc) → P (body n pc s).2 n (phaseOf (body n pc s).1)
  frame : ∀ n ph m pc s, P s n ph → P (body m pc s).2 n ph
  exit : ∀ n r s, P s n (Phase.returning r) → P s n (Phase.exited r)
  error : ∀ n e s, P s n (Phase.returning (some e)) → ∃ ev ∈ tr s, ev.err = some e
  mono : ∀ n pc s ev, ev ∈ tr s → ev ∈ tr (body n pc s).2
  fresh : ∀ n pc s ev, ev ∈ tr (body n pc s).2 → ev.err ≠ none →
    ev ∈ tr s ∨ ∃ e, (body n pc s).1 = Next.ret (some e)
  only : ∀ n pc s ev, ev ∈ tr (body n pc s).2 → ev ∈ tr s ∨ Q n ev

/-- Invariant of a running group. -/
structure GroupInv {τ κ : Type} (tr : κ → List Event) (P : κ → String → Phase τ → Prop)
    (Q : String → Event → Prop) (G : Group τ κ) : Prop where
  each : ∀ g ∈ G.goroutines, P G.shared g.containerName g.phase
  err_traced : ∀ e, G.err = some e → ∃ ev ∈ tr G.shared, ev.err = some e
  exited_err : ∀ g ∈ G.goroutines, ∀ e, g.phase = Phase.exited (some e) → G.err ≠ none
  failure_seen : ∀ ev ∈ tr G.shared, ev.err ≠ none →
    G.err ≠ none ∨ ∃ g ∈ G.goroutines, ∃ e, g.phase = Phase.returning (some e)
  events : ∀ ev ∈ tr G.shared, ∃ g ∈ G.goroutines, Q g.containerName ev

/-- What holds of a goroutine of `StopContainersAttachedToVolume` in each phase. -/
def StopLocal {σ : Type} (sh : StopShared σ) (n : String) : Phase StopPc → Prop
  | Phase.running StopPc.query => True
  | Phase.running StopPc.stop =>
    ∃ cs, Event.ContainerList ⟨false, [("name", n)]⟩ (cs, none) ∈ sh.world.trace
      ∧ cs.length = 1
  | Phase.returning none | Phase.exited none =>
    ∃ cs, Event.ContainerList ⟨false, [("name", n)]⟩ (cs, none) ∈ sh.world.trace
      ∧ (cs.length = 1 → Event.ContainerStop n timeout none ∈ sh.world.trace)
  | Phase.returning (some e) | Phase.exited (some e) =>
    ∃ ev ∈ sh.world.trace, ev.err = some e

/-- The calls the goroutine of `StopContainersAttachedToVolume` for `n` issues:
the running-only re-query by name and the stop with the 10 s timeout. -/
def StopCall (n : String) (ev : Event) : Prop :=
  (∃ res, ev = Event.ContainerList ⟨false, [("name", n)]⟩ res)
    ∨ ∃ res, ev = Event.ContainerStop n timeout res

/-- The call the goroutine of `StartContainersAttachedToVolume` for `n` issues. -/
def StartCall (n : String) (ev : Event) : Prop :=
  ∃ res, ev = Event.ContainerStart n res

/-- What holds of a goroutine of `StartContainersAttachedToVolume` in each phase,
for an observation `isRunning` of the engine state. -/
def StartLocal {σ : Type} (isRunning : σ → String → Prop) (w : World σ) (n : String) :
    Phase StartPc → Prop
  | Phase.running StartPc.start => True
  | Phase.returning none | Phase.exited none =>
    Event.ContainerStart n none ∈ w.trace ∧ isRunning w.engine n
  | Phase.returning (some e) | Phase.exited (some e) =>
    ∃ ev ∈ w.trace, ev.err = some e

/-! ## States of the reference engine -/

/-- Reference engine state: `db` is running with volume `v` attached, and the
loader exits with code 3. -/
def simLoadFails : Sim :=
  ⟨[⟨"db", true, ["v"]⟩], false, 3, false⟩

/-- Reference engine state: `web` has volume `v` attached and is not running. -/
def simStopped : Sim :=
  ⟨[⟨"web", false, ["v"]⟩], false, 0, false⟩

/-- Reference engine state: `db` and `db2` are both running with volume `v`
attached; the name filter `db` matches both. -/
def simTwoMatches : Sim :=
  ⟨[⟨"db", true, ["v"]⟩, ⟨"db2", true, ["v"]⟩], false, 0, false⟩

/-- Reference engine state: `db` is running with volume `v` attached, and the
volume listing fails. -/
def simListingDown : Sim :=
  ⟨[⟨"db", true, ["v"]⟩], true, 0, false⟩

/-- Reference engine state: `db` is running with volume `v` attached. -/
def simRunning : Sim :=
  ⟨[⟨"db", true, ["v"]⟩], false, 0, false⟩

/-- The client of the reference engine whose volume listing hands back the
containers it found together with a non-nil error, as a listing whose response
breaks off while it is decoded does. -/
def Sim.clientPartialListing : Client Sim :=
  { Sim.client with
    ContainerList := fun options s =>
      if options.Filters.any (fun f => f.1 = "volume") then
        (((Sim.client.ContainerList options s).1.1, some ⟨"unexpected EOF"⟩), s)
      else Sim.client.ContainerList options s }

/-- The client of the reference engine with every stop call failing. -/
def Sim.clientStopFails : Client Sim :=
  { Sim.client with
    ContainerStop := fun _ _ s => (some ⟨"cannot stop container"⟩, s) }

/-! ## Name normalisation -/

theorem TrimPrefix_slash (s : String) : TrimPrefix ("/" ++ s) "/" = s := by
  have h : ("/" ++ s).data = '/' :: s.data := by
    rw [String.data_append]; rfl
  simp [TrimPrefix, HasPrefix, h, List.isPrefixOf]

theorem TrimPrefix_no_slash (s : String) (h : s.data.head? ≠ some '/') :
    TrimPrefix s "/" = s := by
  have hp : HasPrefix s "/" = false := by
    unfold HasPrefix
    cases hs : s.data with
    | nil => rfl
    | cons c cs =>
      rw [hs] at h
      have hc : c ≠ '/' := fun hc => h (by simp [hc])
      have : ("/" : String).data = ['/'] := rfl
      rw [this]
      simp [List.isPrefixOf, hc]
      exact fun h' => hc h'.symm
  simp [TrimPrefix, hp]

theorem collectNames_eq (containers : List Container) (acc : List String)
    (hnames : ∀ c ∈ containers, c.Names ≠ []) :
    collectNames containers acc =
      some (acc ++ containers.map fun c => TrimPrefix (c.Names.headD "") "/") := by
  induction containers generalizing acc with
  | nil => simp [collectNames]
  | cons c rest ih =>
    have hc : c.Names ≠ [] := hnames c (List.mem_cons_self _ _)
    have hrest : ∀ c' ∈ rest, c'.Names ≠ [] := fun c' hc' => hnames c' (List.mem_cons_of_mem _ hc')
    cases hN : c.Names with
    | nil => exact absurd hN hc
    | cons name names =>
      simp [collectNames, hN, ih _ hrest]

/-- C7: when the volume listing succeeds with `containers`, each of which reports
at least one name, `GetContainersForVolume` returns one name per listed container,
in the listing's order, each the container's first name with the leading "/"
stripped: "/" followed by `s` becomes `s`, and a name that does not begin with
"/" is returned as it is. -/
theorem GetContainersForVolume_names {σ : Type} (cli : Client σ) (volumeName : String)
    (w : World σ) (containers : List Container)
    (hlist : (cli.ContainerList { All := true, Filters := [("volume", volumeName)] } w.engine).1
      = (containers, none))
    (hnames : ∀ c ∈ containers, c.Names ≠ []) :
    (GetContainersForVolume cli volumeName w).1
        = some (containers.map fun c => TrimPrefix (c.Names.headD "") "/")
      ∧ (∀ s : String, TrimPrefix ("/" ++ s) "/" = s)
      ∧ (∀ s : String, s.data.head? ≠ some '/' → TrimPrefix s "/" = s) := by
  refine ⟨?_, TrimPrefix_slash, TrimPrefix_no_slash⟩
  simp [GetContainersForVolume, callList, hlist, collectNames_eq _ _ hnames]

/-- Witness of C7 on the reference engine: "/db" and "/web" resolve to "db" and "web". -/
theorem GetContainersForVolume_names_witness :
    (GetContainersForVolume Sim.client "v"
        ⟨⟨[⟨"db", true, ["v"]⟩, ⟨"web", false, ["v"]⟩], false, 0, false⟩, []⟩).1
      = some ["db", "web"] :=
  (GetContainersForVolume_names Sim.client "v"
    ⟨⟨[⟨"db", true, ["v"]⟩, ⟨"web", false, ["v"]⟩], false, 0, false⟩, []⟩
    [⟨["/db"]⟩, ⟨["/web"]⟩] (by decide) (by decide)).1

/-! ## A group without goroutines -/

theorem stepAt_nil {τ κ : Type} (body : Body τ κ) (i : Nat) (err : Option GoError) (s : κ) :
    stepAt body i [] err s = ([], err, s) := by
  cases i <;> rfl

theorem runSchedule_nil {τ κ : Type} (body : Body τ κ) (sched : List Nat)
    (err : Option GoError) (s : κ) :
    runSchedule body sched ⟨[], err, s⟩ = ⟨[], err, s⟩ := by
  induction sched with
  | nil => rfl
  | cons i sched ih => simp [runSchedule, stepAt_nil, ih]

theorem stop_listing_failure {σ : Type} (cli : Client σ) (sched : List Nat)
    (volumeName : String) (s : σ) (err : GoError)
    (hfail : (cli.ContainerList { All := true, Filters := [("volume", volumeName)] } s).1
      = ([], some err)) :
    (GetContainersForVolume cli volumeName ⟨s, []⟩).1 = some []
      ∧ (StopContainersAttachedToVolume cli sched volumeName s).1 = some ([], none)
      ∧ (StopContainersAttachedToVolume cli sched volumeName s).2.trace
          = [Event.ContainerList { All := true, Filters := [("volume", volumeName)] }
              ([], some err)]
      ∧ ∀ ev ∈ (StopContainersAttachedToVolume cli sched volumeName s).2.trace,
          ev.isStop = false := by
  have h1 : (GetContainersForVolume cli volumeName ⟨s, []⟩).1 = some [] := by
    simp [GetContainersForVolume, callList, hfail, collectNames]
  have h2 : (GetContainersForVolume cli volumeName ⟨s, []⟩).2.trace
      = [Event.ContainerList { All := true, Filters := [("volume", volumeName)] }
          ([], some err)] := by
    simp [GetContainersForVolume, callList, hfail]
  have h3 : (StopContainersAttachedToVolume cli sched volumeName s).1 = some ([], none) := by
    simp [StopContainersAttachedToVolume, h1, stopGroup, Wait, spawn, runSchedule_nil]
  have h4 : (StopContainersAttachedToVolume cli sched volumeName s).2.trace
      = [Event.ContainerList { All := true, Filters := [("volume", volumeName)] }
          ([], some err)] := by
    simp [StopContainersAttachedToVolume, h1, h2, stopGroup, Wait, spawn, runSchedule_nil]
  refine ⟨h1, h3, h4, ?_⟩
  intro ev hev
  rw [h4] at hev
  simp at hev
  subst hev
  rfl

/-- C8 fails on the code: the volume listing returns a non-nil error together
with the container `db`.  `GetContainersForVolume` does not return the empty
sequence but `["db"]`, and `StopContainersAttachedToVolume` returns `["db"]`
and issues a stop call for `db`. -/
theorem failed_listing_still_resolves :
    (Sim.clientPartialListing.ContainerList ⟨true, [("volume", "v")]⟩ simRunning).1
        = ([⟨["/db"]⟩], some ⟨"unexpected EOF"⟩)
      ∧ (GetContainersForVolume Sim.clientPartialListing "v" ⟨simRunning, []⟩).1
        = some ["db"]
      ∧ (StopContainersAttachedToVolume Sim.clientPartialListing [] "v" simRunning).1
        = some (["db"], none)
      ∧ (StopContainersAttachedToVolume Sim.clientPartialListing [] "v" simRunning).2.trace
        = [Event.ContainerList ⟨true, [("volume", "v")]⟩
             ([⟨["/db"]⟩], some ⟨"unexpected EOF"⟩),
           Event.ContainerList ⟨false, [("name", "db")]⟩ ([⟨["/db"]⟩], none),
           Event.ContainerStop "db" 10000000000 none] :=
  ⟨rfl, rfl, rfl, rfl⟩

/-- C8, as the code has it: when the volume listing returns a non-nil error,
`GetContainersForVolume` does not propagate it and resolves the names of the
containers that came with the error as it does on success.  When no container
came with the error, it returns the empty sequence, and
`StopContainersAttachedToVolume` returns the empty list with a nil error after
that one listing call and no other call, so no stop call is issued. -/
theorem listing_failure_degrades {σ : Type} (cli : Client σ) (sched : List Nat)
    (volumeName : String) (s : σ) (containers : List Container) (err : GoError)
    (hfail : (cli.ContainerList { All := true, Filters := [("volume", volumeName)] } s).1
      = (containers, some err))
    (hnames : ∀ c ∈ containers, c.Names ≠ []) :
    (GetContainersForVolume cli volumeName ⟨s, []⟩).1
        = some (containers.map fun c => TrimPrefix (c.Names.headD "") "/")
      ∧ (containers = [] →
          (GetContainersForVolume cli volumeName ⟨s, []⟩).1 = some []
          ∧ (StopContainersAttachedToVolume cli sched volumeName s).1 = some ([], none)
          ∧ (StopContainersAttachedToVolume cli sched volumeName s).2.trace
              = [Event.ContainerList { All := true, Filters := [("volume", volumeName)] }
                  ([], some err)]
          ∧ ∀ ev ∈ (StopContainersAttachedToVolume cli sched volumeName s).2.trace,
              ev.isStop = false) := by
  constructor
  · simp [GetContainersForVolume, callList, hfail, collectNames_eq _ _ hnames]
  · intro hnil
    subst hnil
    exact stop_listing_failure cli sched volumeName s err hfail

/-- Witness of the amended C8 on the reference engine, whose failing volume
listing returns no container: `db` is running and attached, nothing is resolved
and nothing is stopped. -/
theorem listing_failure_degrades_witness :
    (StopContainersAttachedToVolume Sim.client [0, 1] "v" simListingDown).1
        = some ([], none)
      ∧ (StopContainersAttachedToVolume Sim.client [0, 1] "v" simListingDown).2.trace
        = [Event.ContainerList ⟨true, [("volume", "v")]⟩
            ([], some ⟨"cannot connect to the engine"⟩)] :=
  have h := (listing_failure_degrades Sim.client [0, 1] "v" simListingDown []
    ⟨"cannot connect to the engine"⟩ rfl (by simp)).2 rfl
  ⟨h.2.1, h.2.2.1⟩

/-! ## `Load` -/

/-! ### The decimal rendering of the exit code -/

theorem digitChar_spec (d : Nat) (hd : d < 10) :
    (Nat.digitChar d).isDigit = true ∧ (Nat.digitChar d).toNat - 48 = d := by
  interval_cases d <;> decide

theorem readDigits_append (xs : List Char) (c : Char) (acc : Nat) :
    readDigits (xs ++ [c]) acc
      = (readDigits xs acc).bind fun v =>
          if c.isDigit then some (10 * v + (c.toNat - 48)) else none := by
  induction xs generalizing acc with
  | nil => simp [readDigits]
  | cons x xs ih =>
    by_cases hx : x.isDigit
    · simp [readDigits, hx, ih]
    · simp [readDigits, hx]

theorem toDigitsCore_spec (fuel n : Nat) (ds : List Char) (hfuel : n < fuel) :
    ∃ xs, Nat.toDigitsCore 10 fuel n ds = xs ++ ds ∧ readDigits xs 0 = some n ∧ xs ≠ [] := by
  induction fuel generalizing n ds with
  | zero => omega
  | succ fuel ih =>
    have hd := digitChar_spec (n % 10) (Nat.mod_lt _ (by decide))
    by_cases h0 : n / 10 = 0
    · refine ⟨[Nat.digitChar (n % 10)], ?_, ?_, by simp⟩
      · simp [Nat.toDigitsCore, h0]
      · have hn : n % 10 = n := by omega
        simp only [readDigits, hd.1, if_true, hd.2]
        simp [hn]
    · obtain ⟨xs, hxs, hval, hne⟩ := ih (n / 10) (Nat.digitChar (n % 10) :: ds) (by omega)
      refine ⟨xs ++ [Nat.digitChar (n % 10)], ?_, ?_, by simp⟩
      · simp [Nat.toDigitsCore, h0, hxs]
      · rw [readDigits_append, hval]
        simp only [Option.some_bind, hd.1, if_true, hd.2]
        congr 1
        omega

theorem readDigits_repr (m : Nat) :
    readDigits (Nat.repr m).data 0 = some m ∧ (Nat.repr m).data ≠ []
      ∧ ∀ c cs, (Nat.repr m).data = c :: cs → c.isDigit = true := by
  obtain ⟨xs, hxs, hval, hne⟩ := toDigitsCore_spec (m + 1) m [] (by omega)
  have hdata : (Nat.repr m).data = xs := by
    simp [Nat.repr, Nat.toDigits, hxs, List.asString]
  rw [hdata]
  refine ⟨hval, hne, ?_⟩
  intro c cs hc
  rw [hc] at hval
  by_contra hnd
  simp [readDigits, hnd] at hval

theorem parseDecimal_formatInt64 (n : Int) : parseDecimal (formatInt64 n) = some n := by
  cases n with
  | ofNat m =>
    obtain ⟨hval, hne, hhead⟩ := readDigits_repr m
    cases hdata : (Nat.repr m).data with
    | nil => exact absurd hdata hne
    | cons c cs =>
      have hc := hhead c cs hdata
      have hneq : c ≠ '-' := by
        intro h
        rw [h] at hc
        exact absurd hc (by decide)
      rw [hdata] at hval
      simp [parseDecimal, formatInt64, hdata, hneq, hval]
  | negSucc m =>
    obtain ⟨hval, hne, _⟩ := readDigits_repr (m + 1)
    have hdata : ("-" ++ Nat.repr (m + 1)).data = '-' :: (Nat.repr (m + 1)).data := by
      rw [String.data_append]; rfl
    simp [parseDecimal, formatInt64, hdata, hne, hval]
    rw [Int.negSucc_eq]
    omega

theorem formatInt64_toString (n : Int) : formatInt64 n = toString n := by
  cases n <;> rfl
/-- C3: when create, start and the retrieval and draining of the logs succeed and
the wait step reports a non-zero exit code, `Load` returns a non-nil error whose
message is "container exited with status code ", the exit code in decimal and a
newline, where the decimal part reads back as that exit code and is the standard
decimal rendering of the integer; and its trace holds no `ContainerRemove` call. -/
theorem Load_nonzero_exit {σ : Type} (cli : Client σ) (volumeName image : String)
    (s s1 s2 s3 s4 : σ) (respID : String) (exitCode : Int) (out : ReadCloser)
    (hcreate : cli.ContainerCreate (loadConfig image) (loadHostConfig volumeName) s
      = (Res.ok respID, s1))
    (hstart : cli.ContainerStart respID s1 = (none, s2))
    (hwait : cli.ContainerWait respID s2 = (WaitResult.statusCh exitCode, s3))
    (hexit : exitCode ≠ 0)
    (hlogs : cli.ContainerLogs respID s3 = (Res.ok out, s4))
    (hcopy : (StdCopy out).2 = none) :
    (Load cli volumeName image s).1
        = some ⟨"container exited with status code " ++ formatInt64 exitCode ++ "\n"⟩
      ∧ parseDecimal (formatInt64 exitCode) = some exitCode
      ∧ formatInt64 exitCode = toString exitCode
      ∧ (∃ msg : String, (Load cli volumeName image s).1 = some ⟨msg⟩
          ∧ msg = "container exited with status code " ++ toString exitCode ++ "\n")
      ∧ (∀ ev ∈ (Load cli volumeName image s).2.trace, ev.isRemove = false)
      ∧ (Load cli volumeName image s).2.engine = s4 := by
  have hmsg : (Load cli volumeName image s).1
      = some ⟨"container exited with status code " ++ formatInt64 exitCode ++ "\n"⟩ := by
    simp [Load, callCreate, callStart, callWait, callLogs, hcreate, hstart, hwait, hlogs,
      hcopy, hexit]
  refine ⟨hmsg, parseDecimal_formatInt64 exitCode, formatInt64_toString exitCode,
    ⟨_, hmsg, by rw [formatInt64_toString]⟩, ?_, ?_⟩
  · simp [Load, callCreate, callStart, callWait, callLogs, hcreate, hstart, hwait, hlogs,
      hcopy, hexit, Event.isRemove]
  · simp [Load, callCreate, callStart, callWait, callLogs, hcreate, hstart, hwait, hlogs,
      hcopy, hexit]

/-- Witness of C3 on the reference engine: exit code 137. -/
theorem Load_nonzero_exit_witness :
    (Load Sim.client "v" "img" ⟨[], false, 137, false⟩).1
        = some ⟨"container exited with status code 137\n"⟩
      ∧ parseDecimal "137" = some 137
      ∧ (∀ ev ∈ (Load Sim.client "v" "img" ⟨[], false, 137, false⟩).2.trace,
          ev.isRemove = false) :=
  have h := Load_nonzero_exit Sim.client "v" "img" ⟨[], false, 137, false⟩
    ⟨[], false, 137, true⟩ ⟨[], false, 137, true⟩ ⟨[], false, 137, true⟩
    ⟨[], false, 137, true⟩ "loader" 137 ⟨0, none⟩ rfl rfl rfl (by decide) rfl rfl
  ⟨h.1, h.2.1, h.2.2.2.2.1⟩

/-- C4: when create, start and the retrieval and draining of the logs succeed and
the wait step reports exit code 0, the trace of `Load` holds exactly one
`ContainerRemove` call, for the ID that create returned; `Load` returns the
result of that call, so it returns nil exactly when the remove succeeds; and for
any engine in which a successful remove of an ID leaves no container with that
ID, a nil result means the loader container does not exist in the final state. -/
theorem Load_zero_exit {σ : Type} (cli : Client σ) (volumeName image : String)
    (s s1 s2 s3 s4 : σ) (respID : String) (out : ReadCloser)
    (hcreate : cli.ContainerCreate (loadConfig image) (loadHostConfig volumeName) s
      = (Res.ok respID, s1))
    (hstart : cli.ContainerStart respID s1 = (none, s2))
    (hwait : cli.ContainerWait respID s2 = (WaitResult.statusCh 0, s3))
    (hlogs : cli.ContainerLogs respID s3 = (Res.ok out, s4))
    (hcopy : (StdCopy out).2 = none) :
    (Load cli volumeName image s).2.trace.filter Event.isRemove
        = [Event.ContainerRemove respID (cli.ContainerRemove respID s4).1]
      ∧ (Load cli volumeName image s).1 = (cli.ContainerRemove respID s4).1
      ∧ ((Load cli volumeName image s).1 = none ↔ (cli.ContainerRemove respID s4).1 = none)
      ∧ (Load cli volumeName image s).2.engine = (cli.ContainerRemove respID s4).2
      ∧ ∀ containerExists : σ → String → Prop,
          (∀ id t, (cli.ContainerRemove id t).1 = none →
            ¬ containerExists (cli.ContainerRemove id t).2 id) →
          (Load cli volumeName image s).1 = none →
          ¬ containerExists (Load cli volumeName image s).2.engine respID := by
  have hres : (Load cli volumeName image s).1 = (cli.ContainerRemove respID s4).1 := by
    cases hrm : (cli.ContainerRemove respID s4).1 <;>
    simp [Load, callCreate, callStart, callWait, callLogs, callRemove, hcreate, hstart, hwait,
      hlogs, hcopy, hrm]
  have heng : (Load cli volumeName image s).2.engine = (cli.ContainerRemove respID s4).2 := by
    cases hrm : (cli.ContainerRemove respID s4).1 <;>
    simp [Load, callCreate, callStart, callWait, callLogs, callRemove, hcreate, hstart, hwait,
      hlogs, hcopy, hrm]
  refine ⟨?_, hres, by rw [hres], heng, ?_⟩
  · cases hrm : (cli.ContainerRemove respID s4).1 <;>
    simp [Load, callCreate, callStart, callWait, callLogs, callRemove, hcreate, hstart, hwait,
      hlogs, hcopy, hrm, List.filter, Event.isRemove]
  · intro containerExists hcontract hnil
    rw [heng]
    rw [hres] at hnil
    exact hcontract respID s4 hnil

/-- Witness of C4 on the reference engine: exit code 0, the loader is removed. -/
theorem Load_zero_exit_witness :
    (Load Sim.client "v" "img" ⟨[], false, 0, false⟩).2.trace.filter Event.isRemove
        = [Event.ContainerRemove "loader" none]
      ∧ (Load Sim.client "v" "img" ⟨[], false, 0, false⟩).1 = none :=
  have h := Load_zero_exit Sim.client "v" "img" ⟨[], false, 0, false⟩
    ⟨[], false, 0, true⟩ ⟨[], false, 0, true⟩ ⟨[], false, 0, true⟩ ⟨[], false, 0, true⟩
    "loader" ⟨0, none⟩ rfl rfl rfl rfl rfl
  ⟨h.1, h.2.1⟩

/-! ## `LoadImage`: a failing `Load` -/

/-- C10: when `LoadImage` reaches `backend.Load` (parameters present, client
obtained, first UI refresh and `StopContainersAttachedToVolume` without error) and
`Load` returns the error `err`, `LoadImage` returns the HTTP error 500 with the
message of `err`; the only client call after those of `Load` is the deferred
`TriggerUIRefresh`, so `StartContainersAttachedToVolume` issues no start call and
the engine is left in the state `Load` left it in, up to that refresh. -/
theorem LoadImage_load_error {σ : Type} (h : Handler σ) (cli : Client σ)
    (schedStop schedStart : List Nat) (volumeName image : String)
    (cache : String → Option String) (s : σ) (w0 w1 w2 : World σ)
    (stoppedContainers : List String) (err : GoError)
    (hvol : volumeName ≠ "") (himg : image ≠ "")
    (hcli : h.DockerClient = Res.ok cli)
    (hrefresh : callRefresh cli ⟨s, []⟩ = (none, w0))
    (hstop : StopContainersAttachedToVolume cli schedStop volumeName w0.engine
      = (some (stoppedContainers, none), w1))
    (hload : Load cli volumeName image w1.engine = (some err, w2)) :
    (LoadImage h schedStop schedStart volumeName image cache s).1
        = HandlerResult.HTTPError 500 err.Error
      ∧ (LoadImage h schedStop schedStart volumeName image cache s).2.world.trace
        = w0.trace ++ w1.trace ++ w2.trace
            ++ [Event.TriggerUIRefresh (cli.TriggerUIRefresh w2.engine).1]
      ∧ (LoadImage h schedStop schedStart volumeName image cache s).2.world.engine
        = (cli.TriggerUIRefresh w2.engine).2 := by
  have hd : ∀ (res : HandlerResult) (c : String → Option String) (w : World σ),
      deferred cli volumeName res c w
        = (res, ⟨mapDelete c volumeName,
            ⟨(cli.TriggerUIRefresh w.engine).2,
              w.trace ++ [Event.TriggerUIRefresh (cli.TriggerUIRefresh w.engine).1]⟩⟩) :=
    fun _ _ _ => rfl
  simp [LoadImage, hvol, himg, hcli, hrefresh, hstop, hload, hd, World.after]

/-- Witness of C10 on the reference engine: the loader exits with code 3, the
handler answers 500 with the message of `Load`, and `db`, stopped for the load,
is still stopped at the end. -/
theorem LoadImage_load_error_witness :
    (LoadImage ⟨Res.ok Sim.client⟩ [] [] "v" "img" (fun _ => none) simLoadFails).1
        = HandlerResult.HTTPError 500 "container exited with status code 3\n"
      ∧ (LoadImage ⟨Res.ok Sim.client⟩ [] [] "v" "img" (fun _ => none)
          simLoadFails).2.world.engine.containers = [⟨"db", false, ["v"]⟩] :=
  have h := LoadImage_load_error ⟨Res.ok Sim.client⟩ Sim.client [] [] "v" "img"
    (fun _ => none) simLoadFails
    ⟨simLoadFails, [Event.TriggerUIRefresh none]⟩
    (StopContainersAttachedToVolume Sim.client [] "v" simLoadFails).2
    (Load Sim.client "v" "img" ⟨[⟨"db", false, ["v"]⟩], false, 3, false⟩).2
    ["db"] ⟨"container exited with status code 3\n"⟩
    (by decide) (by decide) rfl rfl rfl rfl
  ⟨h.1, h.2.2 ▸ rfl⟩

/-! ## Runs of the code on the reference engine -/

/-- C1, the code at the failing input: `web` is attached to `v` and already
stopped.  `StopContainersAttachedToVolume` issues no stop call and its
accumulator `stoppedContainersByExtension` stays empty, yet the list it returns
is `["web"]`; `LoadImage` passes that list on, a start call for `web` is issued
and `web` is running at the end. -/
theorem stopped_container_is_restarted :
    (StopContainersAttachedToVolume Sim.client [] "v" simStopped).1 = some (["web"], none)
      ∧ (StopContainersAttachedToVolume Sim.client [] "v" simStopped).2.trace
        = [Event.ContainerList ⟨true, [("volume", "v")]⟩ ([⟨["/web"]⟩], none),
           Event.ContainerList ⟨false, [("name", "web")]⟩ ([], none)]
      ∧ (stopGroup Sim.client [] ["web"] simStopped).shared.stoppedContainersByExtension = []
      ∧ Event.ContainerStart "web" none
          ∈ (LoadImage ⟨Res.ok Sim.client⟩ [] [] "v" "img" (fun _ => none)
              simStopped).2.world.trace
      ∧ (LoadImage ⟨Res.ok Sim.client⟩ [] [] "v" "img" (fun _ => none)
          simStopped).2.world.engine.containers = [⟨"web", true, ["v"]⟩] := by
  refine ⟨rfl, rfl, rfl, ?_, rfl⟩
  decide

/-- C5, the code at the failing input: the running-only re-query for `db` returns
two matches, and `StopContainersAttachedToVolume` issues no stop call for `db`
(the only stop call is the one for `db2`), returns a nil error, and leaves `db`
running. -/
theorem two_matches_skip_stop :
    (StopContainersAttachedToVolume Sim.client [] "v" simTwoMatches).1
        = some (["db", "db2"], none)
      ∧ (StopContainersAttachedToVolume Sim.client [] "v" simTwoMatches).2.trace
        = [Event.ContainerList ⟨true, [("volume", "v")]⟩ ([⟨["/db"]⟩, ⟨["/db2"]⟩], none),
           Event.ContainerList ⟨false, [("name", "db")]⟩ ([⟨["/db"]⟩, ⟨["/db2"]⟩], none),
           Event.ContainerList ⟨false, [("name", "db2")]⟩ ([⟨["/db2"]⟩], none),
           Event.ContainerStop "db2" (10 * 1000000000) none]
      ∧ (StopContainersAttachedToVolume Sim.client [] "v" simTwoMatches).2.engine.containers
        = [⟨"db", true, ["v"]⟩, ⟨"db2", false, ["v"]⟩] :=
  ⟨rfl, rfl, rfl⟩

/-- C2 fails on the code: with a failing volume listing,
`StopContainersAttachedToVolume` returns a nil error without any stop call and
leaves the engine as it was, with `db` running and `v` attached to it, and
`LoadImage` goes on to `Load` (the `ContainerCreate` call and those after it) in
that state. -/
theorem load_runs_with_attached_container_running :
    (StopContainersAttachedToVolume Sim.client [] "v" simListingDown).1 = some ([], none)
      ∧ (StopContainersAttachedToVolume Sim.client [] "v" simListingDown).2.engine.containers
        = [⟨"db", true, ["v"]⟩]
      ∧ (LoadImage ⟨Res.ok Sim.client⟩ [] [] "v" "img" (fun _ => none)
          simListingDown).2.world.trace
        = [Event.TriggerUIRefresh none,
           Event.ContainerList ⟨true, [("volume", "v")]⟩
             ([], some ⟨"cannot connect to the engine"⟩),
           Event.ContainerCreate (loadConfig "img") (loadHostConfig "v") (Res.ok "loader"),
           Event.ContainerStart "loader" none,
           Event.ContainerWait "loader" (WaitResult.statusCh 0),
           Event.ContainerLogs "loader" (Res.ok ⟨0, none⟩),
           Event.ContainerRemove "loader" none,
           Event.TriggerUIRefresh none] :=
  ⟨rfl, rfl, rfl⟩

/-! ## Runs of a group -/

theorem runSchedule_append {τ κ : Type} (body : Body τ κ) (a b : List Nat) (G : Group τ κ) :
    runSchedule body (a ++ b) G = runSchedule body b (runSchedule body a G) := by
  induction a generalizing G with
  | nil => rfl
  | cons i a ih => simp [runSchedule, ih]

theorem stepGoroutine_running {τ κ : Type} (body : Body τ κ) (g : Goroutine τ) (pc : τ)
    (err : Option GoError) (s : κ) (hph : g.phase = Phase.running pc) :
    stepGoroutine body g err s
      = ({ g with phase := phaseOf (body g.containerName pc s).1 }, err,
          (body g.containerName pc s).2) := by
  unfold stepGoroutine
  rw [hph]
  cases hb : body g.containerName pc s with
  | mk nx s' => cases nx <;> simp [phaseOf, hb]

theorem stepGoroutine_returning {τ κ : Type} (body : Body τ κ) (g : Goroutine τ)
    (r : Option GoError) (err : Option GoError) (s : κ) (hph : g.phase = Phase.returning r) :
    stepGoroutine body g err s
      = ({ g with phase := Phase.exited r },
          (match err with
           | some e => some e
           | none => r), s) := by
  unfold stepGoroutine
  rw [hph]

theorem stepGoroutine_exited {τ κ : Type} (body : Body τ κ) (g : Goroutine τ)
    (r : Option GoError) (err : Option GoError) (s : κ) (hph : g.phase = Phase.exited r) :
    stepGoroutine body g err s = (g, err, s) := by
  unfold stepGoroutine
  rw [hph]

theorem stepGoroutine_name {τ κ : Type} (body : Body τ κ) (g : Goroutine τ)
    (err : Option GoError) (s : κ) :
    (stepGoroutine body g err s).1.containerName = g.containerName := by
  cases hph : g.phase with
  | running pc => rw [stepGoroutine_running body g pc err s hph]
  | returning r => rw [stepGoroutine_returning body g r err s hph]
  | exited r => rw [stepGoroutine_exited body g r err s hph]

theorem stepAt_cases {τ κ : Type} (body : Body τ κ) (i : Nat) (gs : List (Goroutine τ))
    (err : Option GoError) (s : κ) :
    stepAt body i gs err s = (gs, err, s) ∨
      ∃ pre g post, gs = pre ++ g :: post ∧
        stepAt body i gs err s
          = (pre ++ (stepGoroutine body g err s).1 :: post,
              (stepGoroutine body g err s).2.1, (stepGoroutine body g err s).2.2) := by
  induction gs generalizing i with
  | nil => left; exact stepAt_nil body i err s
  | cons g gs ih =>
    cases i with
    | zero => right; exact ⟨[], g, gs, rfl, rfl⟩
    | succ i =>
      rcases ih i with h | ⟨pre, g0, post, hgs, h⟩
      · left
        simp [stepAt, h]
      · right
        refine ⟨g :: pre, g0, post, by simp [hgs], ?_⟩
        simp [stepAt, h]

theorem GroupInv_stepGoroutine {τ κ : Type} {body : Body τ κ} {tr : κ → List Event}
    {P : κ → String → Phase τ → Prop} {Q : String → Event → Prop} (spec : BodySpec body tr P Q)
    (pre post : List (Goroutine τ)) (g : Goroutine τ) (err : Option GoError) (s : κ)
    (hinv : GroupInv tr P Q ⟨pre ++ g :: post, err, s⟩) :
    GroupInv tr P Q ⟨pre ++ (stepGoroutine body g err s).1 :: post,
      (stepGoroutine body g err s).2.1, (stepGoroutine body g err s).2.2⟩ := by
  have hmem : ∀ x, x ∈ pre ++ g :: post ↔ (x ∈ pre ∨ x = g ∨ x ∈ post) := by
    intro x; simp
  have hmem2 : ∀ (y x : Goroutine τ), x ∈ pre ++ y :: post ↔ (x ∈ pre ∨ x = y ∨ x ∈ post) := by
    intro y x; simp
  have hold : ∀ x, (x ∈ pre ∨ x ∈ post) → x ∈ pre ++ g :: post := by
    intro x hx
    rcases hx with hx | hx
    · exact (hmem x).2 (Or.inl hx)
    · exact (hmem x).2 (Or.inr (Or.inr hx))
  cases hph : g.phase with
  | running pc =>
    rw [stepGoroutine_running body g pc err s hph]
    constructor
    · intro x hx
      rcases (hmem2 _ x).1 hx with hx | hx | hx
      · exact spec.frame _ _ _ _ _ (hinv.each x (hold x (Or.inl hx)))
      · subst hx
        have hg := hinv.each g ((hmem g).2 (Or.inr (Or.inl rfl)))
        simp only at hg
        rw [hph] at hg
        exact spec.step _ _ _ hg
      · exact spec.frame _ _ _ _ _ (hinv.each x (hold x (Or.inr hx)))
    · intro e he
      obtain ⟨ev, hev, hee⟩ := hinv.err_traced e he
      exact ⟨ev, spec.mono _ _ _ _ hev, hee⟩
    · intro x hx e hxe
      rcases (hmem2 _ x).1 hx with hx | hx | hx
      · exact hinv.exited_err x (hold x (Or.inl hx)) e hxe
      · subst hx
        simp only at hxe
        cases hb : (body g.containerName pc s).1 <;> rw [hb] at hxe <;> simp [phaseOf] at hxe
      · exact hinv.exited_err x (hold x (Or.inr hx)) e hxe
    · intro ev hev hne
      rcases spec.fresh _ _ _ _ hev hne with hold' | ⟨e, hret⟩
      · rcases hinv.failure_seen ev hold' hne with h | ⟨g0, hg0, e0, hg0e⟩
        · exact Or.inl h
        · right
          rcases (hmem g0).1 hg0 with h0 | h0 | h0
          · exact ⟨g0, (hmem2 _ g0).2 (Or.inl h0), e0, hg0e⟩
          · subst h0
            rw [hph] at hg0e
            cases hg0e
          · exact ⟨g0, (hmem2 _ g0).2 (Or.inr (Or.inr h0)), e0, hg0e⟩
      · right
        refine ⟨_, (hmem2 _ _).2 (Or.inr (Or.inl rfl)), e, ?_⟩
        simp only
        rw [hret]
        rfl
    · intro ev hev
      rcases spec.only _ _ _ _ hev with hold' | hq
      · obtain ⟨g0, hg0, hq0⟩ := hinv.events ev hold'
        rcases (hmem g0).1 hg0 with h0 | h0 | h0
        · exact ⟨g0, (hmem2 _ g0).2 (Or.inl h0), hq0⟩
        · subst h0
          exact ⟨_, (hmem2 _ _).2 (Or.inr (Or.inl rfl)), hq0⟩
        · exact ⟨g0, (hmem2 _ g0).2 (Or.inr (Or.inr h0)), hq0⟩
      · exact ⟨_, (hmem2 _ _).2 (Or.inr (Or.inl rfl)), hq⟩
  | returning r =>
    rw [stepGoroutine_returning body g r err s hph]
    have hg := hinv.each g ((hmem g).2 (Or.inr (Or.inl rfl)))
    simp only at hg
    rw [hph] at hg
    constructor
    · intro x hx
      rcases (hmem2 _ x).1 hx with hx | hx | hx
      · exact hinv.each x (hold x (Or.inl hx))
      · subst hx
        exact spec.exit _ _ _ hg
      · exact hinv.each x (hold x (Or.inr hx))
    · intro e he
      cases herr : err with
      | some e0 =>
        simp only [herr] at he
        exact hinv.err_traced e (by simpa [herr] using he)
      | none =>
        simp only [herr] at he
        subst he
        exact spec.error _ _ _ hg
    · intro x hx e hxe
      cases herr : err with
      | some e0 => simp
      | none =>
        rcases (hmem2 _ x).1 hx with hx | hx | hx
        · exact absurd herr (hinv.exited_err x (hold x (Or.inl hx)) e hxe)
        · subst hx
          simp only at hxe
          cases hxe
          simp
        · exact absurd herr (hinv.exited_err x (hold x (Or.inr hx)) e hxe)
    · intro ev hev hne
      cases herr : err with
      | some e0 => left; simp
      | none =>
        rcases hinv.failure_seen ev hev hne with h | ⟨g0, hg0, e0, hg0e⟩
        · exact absurd herr h
        · rcases (hmem g0).1 hg0 with h0 | h0 | h0
          · exact Or.inr ⟨g0, (hmem2 _ g0).2 (Or.inl h0), e0, hg0e⟩
          · subst h0
            rw [hph] at hg0e
            cases hg0e
            left; simp
          · exact Or.inr ⟨g0, (hmem2 _ g0).2 (Or.inr (Or.inr h0)), e0, hg0e⟩
    · intro ev hev
      obtain ⟨g0, hg0, hq0⟩ := hinv.events ev hev
      rcases (hmem g0).1 hg0 with h0 | h0 | h0
      · exact ⟨g0, (hmem2 _ g0).2 (Or.inl h0), hq0⟩
      · subst h0
        exact ⟨_, (hmem2 _ _).2 (Or.inr (Or.inl rfl)), hq0⟩
      · exact ⟨g0, (hmem2 _ g0).2 (Or.inr (Or.inr h0)), hq0⟩
  | exited r =>
    rw [stepGoroutine_exited body g r err s hph]
    exact hinv

theorem GroupInv_runSchedule {τ κ : Type} {body : Body τ κ} {tr : κ → List Event}
    {P : κ → String → Phase τ → Prop} {Q : String → Event → Prop} (spec : BodySpec body tr P Q)
    (sched : List Nat) (G : Group τ κ) (hinv : GroupInv tr P Q G) :
    GroupInv tr P Q (runSchedule body sched G) := by
  induction sched generalizing G with
  | nil => exact hinv
  | cons i sched ih =>
    apply ih
    rcases stepAt_cases body i G.goroutines G.err G.shared with h | ⟨pre, g, post, hgs, h⟩
    · rw [h]; exact hinv
    · rw [h]
      apply GroupInv_stepGoroutine spec
      rw [← hgs]
      exact hinv

/-! ## `Wait` leaves no goroutine behind -/

theorem stepAt_names {τ κ : Type} (body : Body τ κ) (i : Nat) (gs : List (Goroutine τ))
    (err : Option GoError) (s : κ) :
    (stepAt body i gs err s).1.map Goroutine.containerName
      = gs.map Goroutine.containerName := by
  rcases stepAt_cases body i gs err s with h | ⟨pre, g, post, hgs, h⟩
  · rw [h]
  · rw [h, hgs]
    simp [stepGoroutine_name]

theorem runSchedule_names {τ κ : Type} (body : Body τ κ) (sched : List Nat) (G : Group τ κ) :
    (runSchedule body sched G).goroutines.map Goroutine.containerName
      = G.goroutines.map Goroutine.containerName := by
  induction sched generalizing G with
  | nil => rfl
  | cons i sched ih =>
    simp only [runSchedule]
    rw [ih]
    exact stepAt_names body i G.goroutines G.err G.shared

theorem runSchedule_length {τ κ : Type} (body : Body τ κ) (sched : List Nat) (G : Group τ κ) :
    (runSchedule body sched G).goroutines.length = G.goroutines.length := by
  have h := congrArg List.length (runSchedule_names body sched G)
  simpa using h

theorem runSchedule_replicate_zero {τ κ : Type} (body : Body τ κ) (k : Nat)
    (g : Goroutine τ) (gs : List (Goroutine τ)) (err : Option GoError) (s : κ) :
    runSchedule body (List.replicate k 0) ⟨g :: gs, err, s⟩
      = ⟨(stepN body k (g, err, s)).1 :: gs, (stepN body k (g, err, s)).2.1,
          (stepN body k (g, err, s)).2.2⟩ := by
  induction k generalizing g err s with
  | zero => rfl
  | succ k ih =>
    simp only [List.replicate, runSchedule, stepAt, stepN]
    exact ih _ _ _

theorem runSchedule_map_succ {τ κ : Type} (body : Body τ κ) (sched : List Nat)
    (g : Goroutine τ) (gs : List (Goroutine τ)) (err : Option GoError) (s : κ) :
    runSchedule body (sched.map (· + 1)) ⟨g :: gs, err, s⟩
      = ⟨g :: (runSchedule body sched ⟨gs, err, s⟩).goroutines,
          (runSchedule body sched ⟨gs, err, s⟩).err,
          (runSchedule body sched ⟨gs, err, s⟩).shared⟩ := by
  induction sched generalizing gs err s with
  | nil => rfl
  | cons i sched ih =>
    simp only [List.map, runSchedule, stepAt]
    exact ih _ _ _

theorem drain_exits {τ κ : Type} (body : Body τ κ) (fuel : Nat)
    (hfuel : ∀ g err s, ∃ r, (stepN body fuel (g, err, s)).1.phase = Phase.exited r)
    (gs : List (Goroutine τ)) (err : Option GoError) (s : κ) :
    ∀ g ∈ (runSchedule body (drainSchedule fuel gs.length) ⟨gs, err, s⟩).goroutines,
      ∃ r, g.phase = Phase.exited r := by
  induction gs generalizing err s with
  | nil =>
    intro g hg
    simp [drainSchedule, runSchedule] at hg
  | cons g0 gs ih =>
    intro g hg
    simp only [List.length_cons, drainSchedule] at hg
    rw [runSchedule_append, runSchedule_replicate_zero, runSchedule_map_succ] at hg
    simp only [List.mem_cons] at hg
    rcases hg with hg | hg
    · subst hg
      exact hfuel g0 err s
    · exact ih _ _ g hg

theorem Wait_exits {τ κ : Type} (body : Body τ κ) (fuel : Nat)
    (hfuel : ∀ g err s, ∃ r, (stepN body fuel (g, err, s)).1.phase = Phase.exited r)
    (sched : List Nat) (G : Group τ κ) :
    ∀ g ∈ (Wait body fuel sched G).goroutines, ∃ r, g.phase = Phase.exited r := by
  unfold Wait
  rw [runSchedule_append, ← runSchedule_length body sched G]
  exact drain_exits body fuel hfuel _ _ _

/-- After `Wait`, `err` is nil exactly when no call in the trace failed, and a
non-nil `err` is the error of a call in the trace. -/
theorem Wait_err {τ κ : Type} {body : Body τ κ} {tr : κ → List Event}
    {P : κ → String → Phase τ → Prop} {Q : String → Event → Prop} (spec : BodySpec body tr P Q) (fuel : Nat)
    (hfuel : ∀ g err s, ∃ r, (stepN body fuel (g, err, s)).1.phase = Phase.exited r)
    (sched : List Nat) (G : Group τ κ) (hinv : GroupInv tr P Q G) :
    (∀ e, (Wait body fuel sched G).err = some e →
        ∃ ev ∈ tr (Wait body fuel sched G).shared, ev.err = some e)
      ∧ ((Wait body fuel sched G).err = none ↔
        ∀ ev ∈ tr (Wait body fuel sched G).shared, ev.err = none) := by
  have hfin := GroupInv_runSchedule spec (sched ++ drainSchedule fuel G.goroutines.length) G hinv
  have hex := Wait_exits body fuel hfuel sched G
  unfold Wait at hex ⊢
  refine ⟨hfin.err_traced, ?_, ?_⟩
  · intro hnone ev hev
    by_contra hne
    rcases hfin.failure_seen ev hev hne with h | ⟨g, hg, e, hge⟩
    · exact h hnone
    · obtain ⟨r, hr⟩ := hex g hg
      rw [hr] at hge
      cases hge
  · intro hall
    cases herr : (runSchedule body (sched ++ drainSchedule fuel G.goroutines.length) G).err with
    | none => rfl
    | some e =>
      obtain ⟨ev, hev, hee⟩ := hfin.err_traced e herr
      rw [hall ev hev] at hee
      cases hee

/-- After `Wait` with a nil `err`, every goroutine has returned nil. -/
theorem Wait_nil_exited {τ κ : Type} {body : Body τ κ} {tr : κ → List Event}
    {P : κ → String → Phase τ → Prop} {Q : String → Event → Prop} (spec : BodySpec body tr P Q) (fuel : Nat)
    (hfuel : ∀ g err s, ∃ r, (stepN body fuel (g, err, s)).1.phase = Phase.exited r)
    (sched : List Nat) (G : Group τ κ) (hinv : GroupInv tr P Q G)
    (hnil : (Wait body fuel sched G).err = none) :
    ∀ g ∈ (Wait body fuel sched G).goroutines,
      g.phase = Phase.exited none
        ∧ P (Wait body fuel sched G).shared g.containerName (Phase.exited none) := by
  have hfin := GroupInv_runSchedule spec (sched ++ drainSchedule fuel G.goroutines.length) G hinv
  have hex := Wait_exits body fuel hfuel sched G
  unfold Wait at hex hnil ⊢
  intro g hg
  obtain ⟨r, hr⟩ := hex g hg
  have hP := hfin.each g hg
  rw [hr] at hP
  cases r with
  | none => exact ⟨hr, hP⟩
  | some e => exact absurd hnil (hfin.exited_err g hg e hr)

theorem GroupInv_spawn {τ κ : Type} (tr : κ → List Event) (P : κ → String → Phase τ → Prop)
    (Q : String → Event → Prop) (entry : τ) (containerNames : List String) (s : κ)
    (hentry : ∀ n, P s n (Phase.running entry)) (htr : tr s = []) :
    GroupInv tr P Q ⟨spawn entry containerNames, none, s⟩ := by
  constructor
  · intro g hg
    simp only [spawn, List.mem_map] at hg
    obtain ⟨n, _, hn⟩ := hg
    subst hn
    exact hentry n
  · intro e he
    cases he
  · intro g hg e hge
    simp only [spawn, List.mem_map] at hg
    obtain ⟨n, _, hn⟩ := hg
    subst hn
    cases hge
  · intro ev hev
    simp only [htr] at hev
    cases hev
  · intro ev hev
    simp only [htr] at hev
    cases hev

theorem Wait_names {τ κ : Type} (body : Body τ κ) (fuel : Nat) (sched : List Nat)
    (entry : τ) (containerNames : List String) (s : κ) :
    (Wait body fuel sched ⟨spawn entry containerNames, none, s⟩).goroutines.map
        Goroutine.containerName = containerNames := by
  unfold Wait
  rw [runSchedule_names]
  simp only [spawn, List.map_map]
  induction containerNames with
  | nil => rfl
  | cons n ns ih => simp [ih]

/-! ## The goroutines of `StopContainersAttachedToVolume` -/

theorem stopBody_trace {σ : Type} (cli : Client σ) (n : String) (pc : StopPc)
    (sh : StopShared σ) :
    ∃ ev, (stopBody cli n pc sh).2.world.trace = sh.world.trace ++ [ev]
      ∧ (ev.err ≠ none → ∃ e, (stopBody cli n pc sh).1 = Next.ret (some e))
      ∧ StopCall n ev := by
  cases pc with
  | query =>
    refine ⟨Event.ContainerList ⟨false, [("name", n)]⟩
      (cli.ContainerList ⟨false, [("name", n)]⟩ sh.world.engine).1, ?_, ?_, Or.inl ⟨_, rfl⟩⟩
    · cases hr : (cli.ContainerList ⟨false, [("name", n)]⟩ sh.world.engine).1 with
      | mk cs e =>
        cases e with
        | some e => simp [stopBody, callList, hr]
        | none =>
          by_cases hlen : cs.length = 1 <;> simp [stopBody, callList, hr, hlen]
    · cases hr : (cli.ContainerList ⟨false, [("name", n)]⟩ sh.world.engine).1 with
      | mk cs e =>
        cases e with
        | some e => simp [stopBody, callList, hr]
        | none => simp [Event.err]
  | stop =>
    refine ⟨Event.ContainerStop n timeout (cli.ContainerStop n timeout sh.world.engine).1,
      ?_, ?_, Or.inr ⟨_, rfl⟩⟩
    · cases hr : (cli.ContainerStop n timeout sh.world.engine).1 with
      | some e => simp [stopBody, callStop, hr]
      | none => simp [stopBody, callStop, hr]
    · cases hr : (cli.ContainerStop n timeout sh.world.engine).1 with
      | some e => simp [stopBody, callStop, hr]
      | none => simp [Event.err]

theorem StopLocal_mono {σ : Type} (sh sh' : StopShared σ) (n : String) (ph : Phase StopPc)
    (hsub : ∀ ev, ev ∈ sh.world.trace → ev ∈ sh'.world.trace) (h : StopLocal sh n ph) :
    StopLocal sh' n ph := by
  cases ph with
  | running pc =>
    cases pc with
    | query => trivial
    | stop =>
      obtain ⟨cs, hcs, hlen⟩ := h
      exact ⟨cs, hsub _ hcs, hlen⟩
  | returning r =>
    cases r with
    | none =>
      obtain ⟨cs, hcs, hstop⟩ := h
      exact ⟨cs, hsub _ hcs, fun hl => hsub _ (hstop hl)⟩
    | some e =>
      obtain ⟨ev, hev, hee⟩ := h
      exact ⟨ev, hsub _ hev, hee⟩
  | exited r =>
    cases r with
    | none =>
      obtain ⟨cs, hcs, hstop⟩ := h
      exact ⟨cs, hsub _ hcs, fun hl => hsub _ (hstop hl)⟩
    | some e =>
      obtain ⟨ev, hev, hee⟩ := h
      exact ⟨ev, hsub _ hev, hee⟩

theorem stopBody_spec {σ : Type} (cli : Client σ) :
    BodySpec (stopBody cli) (fun sh : StopShared σ => sh.world.trace) StopLocal StopCall := by
  constructor
  · intro n pc sh hP
    cases pc with
    | query =>
      cases hr : (cli.ContainerList ⟨false, [("name", n)]⟩ sh.world.engine).1 with
      | mk cs e =>
        cases e with
        | some e =>
          simp only [stopBody, callList, hr, phaseOf, StopLocal]
          exact ⟨_, List.mem_append_right _ (List.mem_singleton_self _), rfl⟩
        | none =>
          by_cases hlen : cs.length = 1
          · simp only [stopBody, callList, hr, hlen, phaseOf, StopLocal, ne_eq,
              not_true_eq_false, if_false]
            exact ⟨cs, List.mem_append_right _ (List.mem_singleton_self _), hlen⟩
          · simp only [stopBody, callList, hr, hlen, phaseOf, StopLocal, ne_eq,
              not_false_eq_true, if_true]
            exact ⟨cs, List.mem_append_right _ (List.mem_singleton_self _),
              fun h => absurd h hlen⟩
    | stop =>
      obtain ⟨cs, hcs, hlen⟩ := hP
      cases hr : (cli.ContainerStop n timeout sh.world.engine).1 with
      | some e =>
        simp only [stopBody, callStop, hr, phaseOf, StopLocal]
        exact ⟨_, List.mem_append_right _ (List.mem_singleton_self _), rfl⟩
      | none =>
        simp only [stopBody, callStop, hr, phaseOf, StopLocal]
        exact ⟨cs, List.mem_append_left _ hcs,
          fun _ => List.mem_append_right _ (List.mem_singleton_self _)⟩
  · intro n ph m pc sh hP
    obtain ⟨ev, htr, _⟩ := stopBody_trace cli m pc sh
    refine StopLocal_mono sh _ n ph ?_ hP
    intro ev' hev'
    rw [htr]
    exact List.mem_append_left _ hev'
  · intro n r sh hP
    cases r <;> exact hP
  · intro n e sh hP
    exact hP
  · intro n pc sh ev hev
    obtain ⟨ev0, htr, _⟩ := stopBody_trace cli n pc sh
    simp only [htr]
    exact List.mem_append_left _ hev
  · intro n pc sh ev hev hne
    obtain ⟨ev0, htr, hfail, _⟩ := stopBody_trace cli n pc sh
    simp only [htr, List.mem_append, List.mem_singleton] at hev
    rcases hev with hev | hev
    · exact Or.inl hev
    · subst hev
      exact Or.inr (hfail hne)
  · intro n pc sh ev hev
    obtain ⟨ev0, htr, _, hq⟩ := stopBody_trace cli n pc sh
    simp only [htr, List.mem_append, List.mem_singleton] at hev
    rcases hev with hev | hev
    · exact Or.inl hev
    · subst hev
      exact Or.inr hq

theorem stopBody_fuel {σ : Type} (cli : Client σ) (g : Goroutine StopPc)
    (err : Option GoError) (sh : StopShared σ) :
    ∃ r, (stepN (stopBody cli) 3 (g, err, sh)).1.phase = Phase.exited r := by
  have hret : ∀ (g : Goroutine StopPc) (err : Option GoError) (sh : StopShared σ) (k : Nat)
      (r : Option GoError), g.phase = Phase.exited r →
      (stepN (stopBody cli) k (g, err, sh)).1.phase = Phase.exited r := by
    intro g err sh k
    induction k generalizing g err sh with
    | zero => intro r hr; exact hr
    | succ k ih =>
      intro r hr
      simp only [stepN]
      rw [stepGoroutine_exited _ g r err sh hr]
      exact ih g err sh r hr
  have hreturning : ∀ (g : Goroutine StopPc) (err : Option GoError) (sh : StopShared σ)
      (k : Nat) (r : Option GoError), g.phase = Phase.returning r →
      (stepN (stopBody cli) (k + 1) (g, err, sh)).1.phase = Phase.exited r := by
    intro g err sh k r hr
    simp only [stepN]
    rw [stepGoroutine_returning _ g r err sh hr]
    exact hret _ _ _ k r rfl
  have hstop : ∀ (g : Goroutine StopPc) (err : Option GoError) (sh : StopShared σ)
      (k : Nat), g.phase = Phase.running StopPc.stop →
      ∃ r, (stepN (stopBody cli) (k + 2) (g, err, sh)).1.phase = Phase.exited r := by
    intro g err sh k hr
    simp only [stepN]
    rw [stepGoroutine_running _ g _ err sh hr]
    cases hc : (cli.ContainerStop g.containerName timeout sh.world.engine).1 with
    | some e =>
      refine ⟨some e, ?_⟩
      have := hreturning ⟨g.containerName, Phase.returning (some e)⟩ err
        (stopBody cli g.containerName StopPc.stop sh).2 k (some e) rfl
      simp only [stepN] at this
      simpa [stopBody, callStop, hc, phaseOf] using this
    | none =>
      refine ⟨none, ?_⟩
      have := hreturning ⟨g.containerName, Phase.returning none⟩ err
        (stopBody cli g.containerName StopPc.stop sh).2 k none rfl
      simp only [stepN] at this
      simpa [stopBody, callStop, hc, phaseOf] using this
  cases hph : g.phase with
  | exited r => exact ⟨r, hret g err sh 3 r hph⟩
  | returning r => exact ⟨r, hreturning g err sh 2 r hph⟩
  | running pc =>
    cases pc with
    | stop => exact hstop g err sh 1 hph
    | query =>
      simp only [stepN]
      rw [stepGoroutine_running _ g _ err sh hph]
      cases hc : (cli.ContainerList ⟨false, [("name", g.containerName)]⟩ sh.world.engine).1 with
      | mk cs e =>
        cases e with
        | some e =>
          refine ⟨some e, ?_⟩
          have := hreturning ⟨g.containerName, Phase.returning (some e)⟩ err
            (stopBody cli g.containerName StopPc.query sh).2 1 (some e) rfl
          simp only [stepN] at this
          simpa [stopBody, callList, hc, phaseOf] using this
        | none =>
          by_cases hlen : cs.length = 1
          · have := hstop ⟨g.containerName, Phase.running StopPc.stop⟩ err
              (stopBody cli g.containerName StopPc.query sh).2 0 rfl
            simp only [stepN] at this
            simpa [stopBody, callList, hc, phaseOf, hlen] using this
          · refine ⟨none, ?_⟩
            have := hreturning ⟨g.containerName, Phase.returning none⟩ err
              (stopBody cli g.containerName StopPc.query sh).2 1 none rfl
            simp only [stepN] at this
            simpa [stopBody, callList, hc, phaseOf, hlen] using this

/-! ## `StopContainersAttachedToVolume` -/

theorem stop_spawn_inv {σ : Type} (containerNames : List String) (s : σ) :
    GroupInv (fun sh : StopShared σ => sh.world.trace) StopLocal StopCall
      ⟨spawn StopPc.query containerNames, none, ⟨⟨s, []⟩, []⟩⟩ :=
  GroupInv_spawn (fun sh : StopShared σ => sh.world.trace) StopLocal StopCall StopPc.query
    containerNames ⟨⟨s, []⟩, []⟩ (fun _ => trivial) rfl

theorem stopGroup_inv {σ : Type} (cli : Client σ) (sched : List Nat)
    (containerNames : List String) (s : σ) :
    GroupInv (fun sh : StopShared σ => sh.world.trace) StopLocal StopCall
      (stopGroup cli sched containerNames s) := by
  unfold stopGroup Wait
  apply GroupInv_runSchedule (stopBody_spec cli)
  exact stop_spawn_inv containerNames s

theorem stopGroup_names {σ : Type} (cli : Client σ) (sched : List Nat)
    (containerNames : List String) (s : σ) :
    (stopGroup cli sched containerNames s).goroutines.map Goroutine.containerName
      = containerNames :=
  Wait_names _ _ _ _ _ _

theorem stopGroup_events {σ : Type} (cli : Client σ) (sched : List Nat)
    (containerNames : List String) (s : σ) :
    ∀ ev ∈ (stopGroup cli sched containerNames s).shared.world.trace,
      ∃ n ∈ containerNames, StopCall n ev := by
  intro ev hev
  obtain ⟨g, hg, hq⟩ := (stopGroup_inv cli sched containerNames s).events ev hev
  refine ⟨g.containerName, ?_, hq⟩
  rw [← stopGroup_names cli sched containerNames s]
  exact List.mem_map_of_mem _ hg

theorem stopGroup_err {σ : Type} (cli : Client σ) (sched : List Nat)
    (containerNames : List String) (s : σ) :
    (∀ e, (stopGroup cli sched containerNames s).err = some e →
        ∃ ev ∈ (stopGroup cli sched containerNames s).shared.world.trace, ev.err = some e)
      ∧ ((stopGroup cli sched containerNames s).err = none ↔
        ∀ ev ∈ (stopGroup cli sched containerNames s).shared.world.trace, ev.err = none) :=
  Wait_err (stopBody_spec cli) 3 (stopBody_fuel cli) sched _
    (stop_spawn_inv containerNames s)

theorem stopGroup_nil {σ : Type} (cli : Client σ) (sched : List Nat)
    (containerNames : List String) (s : σ)
    (hnil : (stopGroup cli sched containerNames s).err = none) :
    ∀ n ∈ containerNames,
      ∃ cs, Event.ContainerList ⟨false, [("name", n)]⟩ (cs, none)
          ∈ (stopGroup cli sched containerNames s).shared.world.trace
        ∧ (cs.length = 1 → Event.ContainerStop n timeout none
          ∈ (stopGroup cli sched containerNames s).shared.world.trace) := by
  intro n hn
  rw [← stopGroup_names cli sched containerNames s] at hn
  obtain ⟨g, hg, hgn⟩ := List.mem_map.1 hn
  have h := Wait_nil_exited (stopBody_spec cli) 3 (stopBody_fuel cli) sched _
    (stop_spawn_inv containerNames s) hnil g hg
  rw [hgn] at h
  exact h.2

/-- C6: `StopContainersAttachedToVolume` returns the full list of names that
`GetContainersForVolume` resolved, whatever the goroutines do.  The calls after
the volume listing are re-queries and stops of attached names; if one of them
fails the returned error is non-nil; a non-nil returned error is the error of one
of those calls; and the returned error is nil exactly when none of them failed. -/
theorem StopContainersAttachedToVolume_error {σ : Type} (cli : Client σ) (sched : List Nat)
    (volumeName : String) (s : σ) (containerNames : List String)
    (hnames : (GetContainersForVolume cli volumeName ⟨s, []⟩).1 = some containerNames) :
    ∃ err groupTrace,
      (StopContainersAttachedToVolume cli sched volumeName s).1 = some (containerNames, err)
      ∧ (StopContainersAttachedToVolume cli sched volumeName s).2.trace
          = (GetContainersForVolume cli volumeName ⟨s, []⟩).2.trace ++ groupTrace
      ∧ (∀ ev ∈ groupTrace, ∃ n ∈ containerNames, StopCall n ev)
      ∧ (∀ ev ∈ groupTrace, ev.err ≠ none → err ≠ none)
      ∧ (∀ e, err = some e → ∃ ev ∈ groupTrace, ev.err = some e)
      ∧ (err = none ↔ ∀ ev ∈ groupTrace, ev.err = none) := by
  refine ⟨(stopGroup cli sched containerNames
      (GetContainersForVolume cli volumeName ⟨s, []⟩).2.engine).err,
    (stopGroup cli sched containerNames
      (GetContainersForVolume cli volumeName ⟨s, []⟩).2.engine).shared.world.trace,
    ?_, ?_, stopGroup_events _ _ _ _, ?_, (stopGroup_err _ _ _ _).1, (stopGroup_err _ _ _ _).2⟩
  · simp [StopContainersAttachedToVolume, hnames]
  · simp [StopContainersAttachedToVolume, hnames]
  · intro ev hev hne hnil
    exact hne ((stopGroup_err _ _ _ _).2.1 hnil ev hev)

/-! ## `StartContainersAttachedToVolume` -/

theorem startBody_eq {σ : Type} (cli : Client σ) (n : String) (w : World σ) :
    startBody cli n StartPc.start w
      = (Next.ret (cli.ContainerStart n w.engine).1,
          ⟨(cli.ContainerStart n w.engine).2,
            w.trace ++ [Event.ContainerStart n (cli.ContainerStart n w.engine).1]⟩) := by
  cases hr : (cli.ContainerStart n w.engine).1 <;> simp [startBody, callStart, hr]

theorem StartLocal_frame {σ : Type} (cli : Client σ) (isRunning : σ → String → Prop)
    (hkeep : ∀ n m s, isRunning s n → isRunning (cli.ContainerStart m s).2 n)
    (w : World σ) (n m : String) (ph : Phase StartPc) (h : StartLocal isRunning w n ph) :
    StartLocal isRunning (startBody cli m StartPc.start w).2 n ph := by
  rw [startBody_eq]
  cases ph with
  | running pc => cases pc; trivial
  | returning r =>
    cases r with
    | none => exact ⟨List.mem_append_left _ h.1, hkeep _ _ _ h.2⟩
    | some e =>
      obtain ⟨ev, hev, hee⟩ := h
      exact ⟨ev, List.mem_append_left _ hev, hee⟩
  | exited r =>
    cases r with
    | none => exact ⟨List.mem_append_left _ h.1, hkeep _ _ _ h.2⟩
    | some e =>
      obtain ⟨ev, hev, hee⟩ := h
      exact ⟨ev, List.mem_append_left _ hev, hee⟩

theorem startBody_spec {σ : Type} (cli : Client σ) (isRunning : σ → String → Prop)
    (hstart : ∀ n s, (cli.ContainerStart n s).1 = none → isRunning (cli.ContainerStart n s).2 n)
    (hkeep : ∀ n m s, isRunning s n → isRunning (cli.ContainerStart m s).2 n) :
    BodySpec (startBody cli) (fun w : World σ => w.trace) (StartLocal isRunning) StartCall := by
  constructor
  · intro n pc w _
    cases pc
    rw [startBody_eq]
    cases hr : (cli.ContainerStart n w.engine).1 with
    | none =>
      simp only [phaseOf, StartLocal]
      refine ⟨List.mem_append_right _ (List.mem_singleton_self _), ?_⟩
      exact hstart n w.engine hr
    | some e =>
      simp only [phaseOf, StartLocal]
      exact ⟨_, List.mem_append_right _ (List.mem_singleton_self _), rfl⟩
  · intro n ph m pc w hP
    cases pc
    exact StartLocal_frame cli isRunning hkeep w n m ph hP
  · intro n r w hP
    cases r <;> exact hP
  · intro n e w hP
    exact hP
  · intro n pc w ev hev
    cases pc
    rw [startBody_eq]
    exact List.mem_append_left _ hev
  · intro n pc w ev hev hne
    cases pc
    rw [startBody_eq] at hev ⊢
    simp only [List.mem_append, List.mem_singleton] at hev
    rcases hev with hev | hev
    · exact Or.inl hev
    · right
      subst hev
      cases hr : (cli.ContainerStart n w.engine).1 with
      | none => rw [hr] at hne; exact absurd rfl hne
      | some e => exact ⟨e, rfl⟩
  · intro n pc w ev hev
    cases pc
    rw [startBody_eq] at hev
    simp only [List.mem_append, List.mem_singleton] at hev
    rcases hev with hev | hev
    · exact Or.inl hev
    · exact Or.inr ⟨_, hev⟩

theorem startBody_fuel {σ : Type} (cli : Client σ) (g : Goroutine StartPc)
    (err : Option GoError) (w : World σ) :
    ∃ r, (stepN (startBody cli) 2 (g, err, w)).1.phase = Phase.exited r := by
  cases hph : g.phase with
  | exited r =>
    refine ⟨r, ?_⟩
    simp only [stepN]
    rw [stepGoroutine_exited _ g r err w hph, stepGoroutine_exited _ g r err w hph]
    exact hph
  | returning r =>
    refine ⟨r, ?_⟩
    simp only [stepN]
    rw [stepGoroutine_returning _ g r err w hph]
    rw [stepGoroutine_exited _ _ r _ _ rfl]
  | running pc =>
    cases pc
    refine ⟨(cli.ContainerStart g.containerName w.engine).1, ?_⟩
    simp only [stepN]
    rw [stepGoroutine_running _ g _ err w hph, startBody_eq]
    rw [stepGoroutine_returning _ _ (cli.ContainerStart g.containerName w.engine).1 _ _ rfl]

theorem start_spawn_inv {σ : Type} (isRunning : σ → String → Prop)
    (containers : List String) (s : σ) :
    GroupInv (fun w : World σ => w.trace) (StartLocal isRunning) StartCall
      ⟨spawn StartPc.start containers, none, ⟨s, []⟩⟩ :=
  GroupInv_spawn (fun w : World σ => w.trace) (StartLocal isRunning) StartCall StartPc.start
    containers ⟨s, []⟩ (fun _ => trivial) rfl

theorem startGroup_nil {σ : Type} (cli : Client σ) (isRunning : σ → String → Prop)
    (hstart : ∀ n s, (cli.ContainerStart n s).1 = none → isRunning (cli.ContainerStart n s).2 n)
    (hkeep : ∀ n m s, isRunning s n → isRunning (cli.ContainerStart m s).2 n)
    (sched : List Nat) (containers : List String) (s : σ)
    (hnil : (startGroup cli sched containers s).err = none) :
    ∀ n ∈ containers,
      Event.ContainerStart n none ∈ (startGroup cli sched containers s).shared.trace
        ∧ isRunning (startGroup cli sched containers s).shared.engine n := by
  intro n hn
  have hnames : (startGroup cli sched containers s).goroutines.map Goroutine.containerName
      = containers := Wait_names _ _ _ _ _ _
  rw [← hnames] at hn
  obtain ⟨g, hg, hgn⟩ := List.mem_map.1 hn
  have h := Wait_nil_exited (startBody_spec cli isRunning hstart hkeep) 2 (startBody_fuel cli)
    sched _ (start_spawn_inv isRunning containers s) hnil g hg
  rw [hgn] at h
  exact h.2

theorem startGroup_events {σ : Type} (cli : Client σ) (sched : List Nat)
    (containers : List String) (s : σ) :
    ∀ ev ∈ (startGroup cli sched containers s).shared.trace,
      ∃ n ∈ containers, StartCall n ev := by
  intro ev hev
  have hinv : GroupInv (fun w : World σ => w.trace) (StartLocal fun _ _ => True) StartCall
      (startGroup cli sched containers s) := by
    unfold startGroup Wait
    apply GroupInv_runSchedule
      (startBody_spec cli (fun _ _ => True) (fun _ _ _ => trivial) (fun _ _ _ _ => trivial))
    exact start_spawn_inv _ containers s
  obtain ⟨g, hg, hq⟩ := hinv.events ev hev
  refine ⟨g.containerName, ?_, hq⟩
  have hnames : (startGroup cli sched containers s).goroutines.map Goroutine.containerName
      = containers := Wait_names _ _ _ _ _ _
  rw [← hnames]
  exact List.mem_map_of_mem _ hg

/-- C9: when `StopContainersAttachedToVolume` returns the list `containerNames`
with a nil error and `StartContainersAttachedToVolume`, called on that list,
returns nil, a start call that succeeded has been issued for every name of the
list, every call `StartContainersAttachedToVolume` issued is a start of a name
of the list, and every container of the list is running in the final engine
state, for any engine in which a successful start leaves the container running
and a start call stops no running container. -/
theorem stop_start_round_trip {σ : Type} (cli : Client σ) (schedStop schedStart : List Nat)
    (volumeName : String) (s : σ) (containerNames : List String) (w1 w2 : World σ)
    (hstop : StopContainersAttachedToVolume cli schedStop volumeName s
      = (some (containerNames, none), w1))
    (hstarted : StartContainersAttachedToVolume cli schedStart containerNames w1.engine
      = (none, w2)) :
    (StopContainersAttachedToVolume cli schedStop volumeName s).1 = some (containerNames, none)
      ∧ (∀ n ∈ containerNames, Event.ContainerStart n none ∈ w2.trace)
      ∧ (∀ ev ∈ w2.trace, ∃ n ∈ containerNames, StartCall n ev)
      ∧ ∀ isRunning : σ → String → Prop,
          (∀ n t, (cli.ContainerStart n t).1 = none → isRunning (cli.ContainerStart n t).2 n) →
          (∀ n m t, isRunning t n → isRunning (cli.ContainerStart m t).2 n) →
          ∀ n ∈ containerNames, isRunning w2.engine n := by
  have herr : (startGroup cli schedStart containerNames w1.engine).err = none := by
    have := congrArg Prod.fst hstarted
    simpa [StartContainersAttachedToVolume] using this
  have hw : (startGroup cli schedStart containerNames w1.engine).shared = w2 := by
    have := congrArg Prod.snd hstarted
    simpa [StartContainersAttachedToVolume] using this
  refine ⟨by rw [hstop], ?_, ?_, ?_⟩
  · intro n hn
    rw [← hw]
    exact (startGroup_nil cli (fun _ _ => True) (fun _ _ _ => trivial)
      (fun _ _ _ _ => trivial) schedStart containerNames w1.engine herr n hn).1
  · intro ev hev
    rw [← hw] at hev
    exact startGroup_events cli schedStart containerNames w1.engine ev hev
  · intro isRunning hstart hkeep n hn
    rw [← hw]
    exact (startGroup_nil cli isRunning hstart hkeep schedStart containerNames w1.engine
      herr n hn).2

/-! ## `LoadImage`: what has happened when `Load` starts -/

theorem GetContainersForVolume_trace {σ : Type} (cli : Client σ) (volumeName : String) (s : σ) :
    (GetContainersForVolume cli volumeName ⟨s, []⟩).2.trace
      = [Event.ContainerList ⟨true, [("volume", volumeName)]⟩
          (cli.ContainerList ⟨true, [("volume", volumeName)]⟩ s).1] := by
  simp [GetContainersForVolume, callList]

theorem StopCall_not_create (n : String) (ev : Event) (h : StopCall n ev) :
    ev.isCreate = false := by
  rcases h with ⟨res, h⟩ | ⟨res, h⟩ <;> subst h <;> rfl

theorem Stop_no_create {σ : Type} (cli : Client σ) (sched : List Nat) (volumeName : String)
    (s : σ) :
    ∀ ev ∈ (StopContainersAttachedToVolume cli sched volumeName s).2.trace,
      ev.isCreate = false := by
  intro ev hev
  cases hn : (GetContainersForVolume cli volumeName ⟨s, []⟩).1 with
  | none =>
    simp only [StopContainersAttachedToVolume, hn, GetContainersForVolume_trace,
      List.mem_singleton] at hev
    subst hev
    rfl
  | some containerNames =>
    simp only [StopContainersAttachedToVolume, hn, GetContainersForVolume_trace,
      List.mem_append, List.mem_singleton] at hev
    rcases hev with hev | hev
    · subst hev
      rfl
    · obtain ⟨n, _, hq⟩ := stopGroup_events _ _ _ _ ev hev
      exact StopCall_not_create n ev hq

theorem Stop_nil {σ : Type} (cli : Client σ) (sched : List Nat) (volumeName : String)
    (s : σ) (containerNames : List String) (w1 : World σ)
    (hstop : StopContainersAttachedToVolume cli sched volumeName s
      = (some (containerNames, none), w1)) :
    (GetContainersForVolume cli volumeName ⟨s, []⟩).1 = some containerNames
      ∧ (∀ n ∈ containerNames,
          ∃ cs, Event.ContainerList ⟨false, [("name", n)]⟩ (cs, none) ∈ w1.trace
            ∧ (cs.length = 1 → Event.ContainerStop n 10000000000 none ∈ w1.trace))
      ∧ (∀ err, (cli.ContainerList ⟨true, [("volume", volumeName)]⟩ s).1 = ([], some err) →
          containerNames = [] ∧ ∀ ev ∈ w1.trace, ev.isStop = false) := by
  cases hn : (GetContainersForVolume cli volumeName ⟨s, []⟩).1 with
  | none => simp [StopContainersAttachedToVolume, hn] at hstop
  | some names =>
    simp only [StopContainersAttachedToVolume, hn, Prod.mk.injEq, Option.some.injEq] at hstop
    obtain ⟨⟨hnames, herr⟩, hw⟩ := hstop
    subst hnames
    refine ⟨rfl, ?_, ?_⟩
    · intro n hmem
      obtain ⟨cs, hcs, hst⟩ := stopGroup_nil cli sched names _ herr n hmem
      rw [← hw]
      exact ⟨cs, List.mem_append_right _ hcs, fun hl => List.mem_append_right _ (hst hl)⟩
    · intro err hfail
      have hd := stop_listing_failure cli sched volumeName s err hfail
      rw [hd.1] at hn
      have hnil : names = [] := (Option.some.inj hn).symm
      refine ⟨hnil, ?_⟩
      intro ev hev
      have h4 := hd.2.2.2 ev
      simp only [StopContainersAttachedToVolume, hd.1] at h4
      subst hnil
      rw [← hw] at hev
      exact h4 hev

theorem deferred_eq {σ : Type} (cli : Client σ) (volumeName : String) (res : HandlerResult)
    (c : String → Option String) (w : World σ) :
    deferred cli volumeName res c w
      = (res, ⟨mapDelete c volumeName,
          ⟨(cli.TriggerUIRefresh w.engine).2,
            w.trace ++ [Event.TriggerUIRefresh (cli.TriggerUIRefresh w.engine).1]⟩⟩) :=
  rfl

theorem callRefresh_trace {σ : Type} (cli : Client σ) (s : σ) (r : Option GoError)
    (w0 : World σ) (hr : callRefresh cli ⟨s, []⟩ = (r, w0)) :
    w0.trace = [Event.TriggerUIRefresh r] := by
  simp only [callRefresh, Prod.mk.injEq] at hr
  obtain ⟨h1, h2⟩ := hr
  rw [← h2, ← h1]
  rfl

/-- C2, as the code has it: whenever `LoadImage` issues a `ContainerCreate` call
(that is, `backend.Load` is invoked), the first UI refresh succeeded and
`StopContainersAttachedToVolume` returned a nil error before; the calls of `Load`
come after all calls of that stop phase; every name `GetContainersForVolume`
resolved (from the containers the volume listing returned, with or without an
error) has been re-queried with success, and each name whose re-query returned
exactly one match has been stopped with success, with a timeout of 10 s
(10000000000 ns), in that phase.  When the volume listing failed and returned
no container, no name was resolved and no stop call was issued. -/
theorem load_only_after_stops {σ : Type} (h : Handler σ) (schedStop schedStart : List Nat)
    (volumeName image : String) (cache : String → Option String) (s : σ)
    (config : Config) (hostConfig : HostConfig) (res : Res String)
    (hcreate : Event.ContainerCreate config hostConfig res
      ∈ (LoadImage h schedStop schedStart volumeName image cache s).2.world.trace) :
    ∃ cli w0 containerNames w1 post,
      h.DockerClient = Res.ok cli
      ∧ callRefresh cli ⟨s, []⟩ = (none, w0)
      ∧ StopContainersAttachedToVolume cli schedStop volumeName w0.engine
          = (some (containerNames, none), w1)
      ∧ (LoadImage h schedStop schedStart volumeName image cache s).2.world.trace
          = w0.trace ++ w1.trace ++ (Load cli volumeName image w1.engine).2.trace ++ post
      ∧ (∀ ev ∈ w0.trace ++ w1.trace, ev.isCreate = false)
      ∧ (GetContainersForVolume cli volumeName ⟨w0.engine, []⟩).1 = some containerNames
      ∧ (∀ n ∈ containerNames,
          ∃ cs, Event.ContainerList ⟨false, [("name", n)]⟩ (cs, none) ∈ w1.trace
            ∧ (cs.length = 1 → Event.ContainerStop n 10000000000 none ∈ w1.trace))
      ∧ (∀ err, (cli.ContainerList ⟨true, [("volume", volumeName)]⟩ w0.engine).1
            = ([], some err) →
          containerNames = [] ∧ ∀ ev ∈ w1.trace, ev.isStop = false) := by
  by_cases hvol : volumeName = ""
  · simp [LoadImage, hvol] at hcreate
  by_cases himg : image = ""
  · simp [LoadImage, hvol, himg] at hcreate
  cases hcli : h.DockerClient with
  | error err => simp [LoadImage, hvol, himg, hcli] at hcreate
  | ok cli =>
    cases hr : callRefresh cli ⟨s, []⟩ with
    | mk r w0 =>
      have hw0 := callRefresh_trace cli s r w0 hr
      cases r with
      | some err =>
        simp [LoadImage, hvol, himg, hcli, hr, deferred_eq, hw0] at hcreate
      | none =>
        have hnc := Stop_no_create cli schedStop volumeName w0.engine
        cases hs : StopContainersAttachedToVolume cli schedStop volumeName w0.engine with
        | mk sr w1 =>
          rw [hs] at hnc
          simp only at hnc
          have hpre : ∀ ev ∈ w0.trace ++ w1.trace, ev.isCreate = false := by
            intro ev hev
            rw [hw0] at hev
            simp only [List.singleton_append, List.mem_cons] at hev
            rcases hev with hev | hev
            · subst hev; rfl
            · exact hnc ev hev
          have hnot : Event.ContainerCreate config hostConfig res ∉ w0.trace ++ w1.trace :=
            fun hmem => by
              have := hpre _ hmem
              simp [Event.isCreate] at this
          cases sr with
          | none =>
            simp only [LoadImage, hvol, himg, hcli, hr, hs, deferred_eq, World.after,
              if_false] at hcreate
            simp only [List.mem_append, List.mem_singleton] at hcreate hnot
            rcases hcreate with hc | hc
            · exact absurd hc hnot
            · cases hc
          | some pr =>
            obtain ⟨containerNames, serr⟩ := pr
            cases serr with
            | some err =>
              simp only [LoadImage, hvol, himg, hcli, hr, hs, deferred_eq, World.after,
                if_false] at hcreate
              simp only [List.mem_append, List.mem_singleton] at hcreate hnot
              rcases hcreate with hc | hc
              · exact absurd hc hnot
              · cases hc
            | none =>
              obtain ⟨hget, hstopped, hdegrade⟩ :=
                Stop_nil cli schedStop volumeName w0.engine containerNames w1 hs
              cases hl : Load cli volumeName image w1.engine with
              | mk lerr w2 =>
                cases lerr with
                | some err =>
                  refine ⟨cli, w0, containerNames, w1,
                    [Event.TriggerUIRefresh (cli.TriggerUIRefresh w2.engine).1],
                    rfl, hr, hs, ?_, hpre, hget, hstopped, hdegrade⟩
                  simp [LoadImage, hvol, himg, hcli, hr, hs, hl, deferred_eq, World.after]
                | none =>
                  cases hst : StartContainersAttachedToVolume cli schedStart containerNames
                      w2.engine with
                  | mk terr w3 =>
                    refine ⟨cli, w0, containerNames, w1,
                      w3.trace ++ [Event.TriggerUIRefresh (cli.TriggerUIRefresh w3.engine).1],
                      rfl, hr, hs, ?_, hpre, hget, hstopped, hdegrade⟩
                    cases terr <;>
                    simp [LoadImage, hvol, himg, hcli, hr, hs, hl, hst, deferred_eq, World.after]

/-- Witness of the amended C2 on the reference engine: `db` runs with `v`
attached, `Load` is invoked, and the stop of `db` precedes it. -/
theorem load_only_after_stops_witness :
    Event.ContainerCreate (loadConfig "img") (loadHostConfig "v") (Res.ok "loader")
        ∈ (LoadImage ⟨Res.ok Sim.client⟩ [] [] "v" "img" (fun _ => none)
            simRunning).2.world.trace
      ∧ ∃ cli w0 containerNames w1 post,
        (⟨Res.ok Sim.client⟩ : Handler Sim).DockerClient = Res.ok cli
        ∧ callRefresh cli ⟨simRunning, []⟩ = (none, w0)
        ∧ StopContainersAttachedToVolume cli [] "v" w0.engine
            = (some (containerNames, none), w1)
        ∧ (LoadImage ⟨Res.ok Sim.client⟩ [] [] "v" "img" (fun _ => none)
            simRunning).2.world.trace
            = w0.trace ++ w1.trace ++ (Load cli "v" "img" w1.engine).2.trace ++ post
        ∧ (∀ ev ∈ w0.trace ++ w1.trace, ev.isCreate = false)
        ∧ (GetContainersForVolume cli "v" ⟨w0.engine, []⟩).1 = some containerNames
        ∧ (∀ n ∈ containerNames,
            ∃ cs, Event.ContainerList ⟨false, [("name", n)]⟩ (cs, none) ∈ w1.trace
              ∧ (cs.length = 1 → Event.ContainerStop n 10000000000 none ∈ w1.trace))
        ∧ (∀ err, (cli.ContainerList ⟨true, [("volume", "v")]⟩ w0.engine).1
              = ([], some err) →
            containerNames = [] ∧ ∀ ev ∈ w1.trace, ev.isStop = false) :=
  ⟨by decide,
    load_only_after_stops ⟨Res.ok Sim.client⟩ [] [] "v" "img" (fun _ => none) simRunning
      (loadConfig "img") (loadHostConfig "v") (Res.ok "loader") (by decide)⟩

/-- Witness of C6 on the reference engine with failing stop calls: `db` is
running, its stop fails, and the error of that call is returned with the full
list of attached names. -/
theorem StopContainersAttachedToVolume_error_witness :
    (StopContainersAttachedToVolume Sim.clientStopFails [] "v" simRunning).1
        = some (["db"], some ⟨"cannot stop container"⟩)
      ∧ ∃ err groupTrace,
        (StopContainersAttachedToVolume Sim.clientStopFails [] "v" simRunning).1
          = some (["db"], err)
        ∧ (StopContainersAttachedToVolume Sim.clientStopFails [] "v" simRunning).2.trace
            = (GetContainersForVolume Sim.clientStopFails "v" ⟨simRunning, []⟩).2.trace
              ++ groupTrace
        ∧ (∀ ev ∈ groupTrace, ∃ n ∈ ["db"], StopCall n ev)
        ∧ (∀ ev ∈ groupTrace, ev.err ≠ none → err ≠ none)
        ∧ (∀ e, err = some e → ∃ ev ∈ groupTrace, ev.err = some e)
        ∧ (err = none ↔ ∀ ev ∈ groupTrace, ev.err = none) :=
  ⟨rfl, StopContainersAttachedToVolume_error Sim.clientStopFails [] "v" simRunning ["db"] rfl⟩

/-- Witness of C9 on the reference engine: `db` is stopped, then started again
and running at the end. -/
theorem stop_start_round_trip_witness :
    Event.ContainerStart "db" none
        ∈ (StartContainersAttachedToVolume Sim.client [] ["db"]
            (StopContainersAttachedToVolume Sim.client [] "v" simRunning).2.engine).2.trace
      ∧ (StopContainersAttachedToVolume Sim.client [] "v" simRunning).2.engine.containers
        = [⟨"db", false, ["v"]⟩]
      ∧ (StartContainersAttachedToVolume Sim.client [] ["db"]
          (StopContainersAttachedToVolume Sim.client [] "v"
            simRunning).2.engine).2.engine.containers
        = [⟨"db", true, ["v"]⟩] :=
  ⟨(stop_start_round_trip Sim.client [] [] "v" simRunning ["db"]
      (StopContainersAttachedToVolume Sim.client [] "v" simRunning).2
      (StartContainersAttachedToVolume Sim.client [] ["db"]
        (StopContainersAttachedToVolume Sim.client [] "v" simRunning).2.engine).2
      rfl rfl).2.1 "db" (List.mem_singleton_self _),
    rfl, rfl⟩

end VolumesBackup
